import Mathlib

/-! Bitbucket pull-request webhook to Teams card adaptor.

A shallow embedding of `adaptor/main.go`: the payload transformation `ParsePR`,
the serialisation `TeamsMsg.NonEscapedJSON` and the tail of the
`POST /webhookb2/:id1/IncomingWebhook/:id2/:id3` handler, followed by theorems
about them.

Go `string` values are modelled as `String`, Go `int`/`int64` as `Int`, Go
slices as `List` (a `nil` slice is `[]`). A Go function that can end other than
by returning (a run-time panic, `os.Exit`) returns an `Outcome`.
-/

namespace Adaptor

/-! ## Outcomes of a Go function -/

/-- How a call ends: it returns a value, it terminates the process with
`os.Exit code`, or it panics on a slice read or slice expression whose index is
out of range. -/
inductive Outcome (α : Type) where
  | returned (a : α)
  | exited (code : Nat)
  | indexOutOfRange
  deriving Repr, DecidableEq

/-- Sequencing of outcomes: the continuation runs only after a return. -/
def Outcome.andThen {α β : Type} (o : Outcome α) (k : α → Outcome β) : Outcome β :=
  match o with
  | .returned a => k a
  | .exited code => .exited code
  | .indexOutOfRange => .indexOutOfRange

/-- Go's index expression `xs[i]` on a slice: a panic when `i` is not below the length. -/
def index {α : Type} (xs : List α) (i : Nat) : Outcome α :=
  match xs.get? i with
  | some x => .returned x
  | none => .indexOutOfRange

/-- Go's slice expression `s[lo:hi]` on a string: a panic unless `lo ≤ hi ≤ len(s)`. -/
def sliceStr (s : String) (lo hi : Nat) : Outcome String :=
  if lo ≤ hi ∧ hi ≤ s.data.length then .returned ⟨(s.data.drop lo).take (hi - lo)⟩
  else .indexOutOfRange

/-! ## `strings.TrimLeft` and `strings.TrimRight` -/

/-- The loop of `strings.TrimLeft`: while the string is not empty and its first
character is contained in the cutset, drop that character. -/
def trimLeftLoop (cutset : List Char) : List Char → List Char
  | [] => []
  | c :: s => if cutset.contains c then trimLeftLoop cutset s else c :: s

/-- The loop of `strings.TrimRight`: while the string is not empty and its last
character is contained in the cutset, drop that character. -/
def trimRightLoop (cutset : List Char) (s : List Char) : List Char :=
  (trimLeftLoop cutset s.reverse).reverse

/-- Go's `strings.TrimLeft(s, cutset)`: `s` with all leading characters contained in
`cutset` removed. -/
def TrimLeft (s cutset : String) : String := ⟨trimLeftLoop cutset.data s.data⟩

/-- Go's `strings.TrimRight(s, cutset)`: `s` with all trailing characters contained in
`cutset` removed. -/
def TrimRight (s cutset : String) : String := ⟨trimRightLoop cutset.data s.data⟩

/-! ## Data model: the Bitbucket event -/

/-- The anonymous `struct { Href string }` of the `self` link lists. -/
structure Link where
  Href : String := ""
  deriving Repr, DecidableEq

/-- The anonymous `struct { Href, Name string }` of the `clone` link lists. -/
structure CloneLink where
  Href : String := ""
  Name : String := ""
  deriving Repr, DecidableEq

/-- The anonymous `struct { Self []struct{Href} }` used for `links`. -/
structure Links where
  Self : List Link := []
  deriving Repr, DecidableEq

/-- The `links` of a repository: `clone` and `self`. -/
structure RepositoryLinks where
  Clone : List CloneLink := []
  Self : List Link := []
  deriving Repr, DecidableEq

/-- Go type `BitBucketUser`; the anonymous user structs of `actor` and of
`pullRequest.author.user` have the same fields. -/
structure BitBucketUser where
  Name : String := ""
  EmailAddress : String := ""
  ID : Int := 0
  DisplayName : String := ""
  Active : Bool := false
  Slug : String := ""
  Type_ : String := ""
  Links : Links := {}
  deriving Repr, DecidableEq

/-- One element of Go type `BitBucketReviewers`; `pullRequest.author` has the same fields. -/
structure BitBucketReviewer where
  User : BitBucketUser := {}
  Role : String := ""
  Approved : Bool := false
  Status : String := ""
  deriving Repr, DecidableEq

/-- Go type `BitBucketReviewers`. -/
abbrev BitBucketReviewers := List BitBucketReviewer

/-- The `project` of a repository. -/
structure Project where
  Key : String := ""
  ID : Int := 0
  Name : String := ""
  Description : String := ""
  Public : Bool := false
  Type_ : String := ""
  Links : Links := {}
  deriving Repr, DecidableEq

/-- The `repository` of a ref. -/
structure Repository where
  Slug : String := ""
  ID : Int := 0
  Name : String := ""
  HierarchyID : String := ""
  ScmID : String := ""
  State : String := ""
  StatusMessage : String := ""
  Forkable : Bool := false
  Project : Project := {}
  Public : Bool := false
  Links : RepositoryLinks := {}
  deriving Repr, DecidableEq

/-- The `fromRef` and `toRef` of a pull request. -/
structure Ref where
  ID : String := ""
  DisplayID : String := ""
  LatestCommit : String := ""
  Type_ : String := ""
  Repository : Repository := {}
  deriving Repr, DecidableEq

/-- The `pullRequest` of the event. `Participants` is `[]any` in the source and is
never read; its elements are kept as their JSON text. -/
structure PullRequest where
  ID : Int := 0
  Version : Int := 0
  Title : String := ""
  State : String := ""
  Open : Bool := false
  Closed : Bool := false
  CreatedDate : Int := 0
  UpdatedDate : Int := 0
  FromRef : Ref := {}
  ToRef : Ref := {}
  Locked : Bool := false
  Author : BitBucketReviewer := {}
  Reviewers : BitBucketReviewers := []
  Participants : List String := []
  Links : Links := {}
  deriving Repr, DecidableEq

/-- Go type `BitBucketPREvent`: the decoded event. Fields missing from the
document keep their zero value. -/
structure BitBucketPREvent where
  EventKey : String := ""
  Date : String := ""
  Actor : BitBucketUser := {}
  PullRequest : PullRequest := {}
  deriving Repr, DecidableEq

/-! ## Data model: the Teams message -/

/-- The anonymous `Mentioned` struct of a `ReviewerEntity`. -/
structure Mentioned where
  ID : String := ""
  Name : String := ""
  deriving Repr, DecidableEq

/-- Go type `ReviewerEntity`. -/
structure ReviewerEntity where
  Type_ : String := ""
  Text : String := ""
  Mentioned : Mentioned := {}
  deriving Repr, DecidableEq

/-- Go type `ReviewerEntitiesList`. -/
abbrev ReviewerEntitiesList := List ReviewerEntity

/-- Go type `TeamsMsgBody`. -/
structure TeamsMsgBody where
  Type_ : String := ""
  Size : String := ""
  Weight : String := ""
  Text : String := ""
  Wrap : Bool := false
  deriving Repr, DecidableEq

/-- The anonymous `Msteams` struct of the attachment content. -/
structure Msteams where
  Width : String := ""
  Entities : ReviewerEntitiesList := []
  deriving Repr, DecidableEq

/-- The anonymous `Content` struct of an attachment. -/
structure Content where
  Type_ : String := ""
  Body : List TeamsMsgBody := []
  Schema : String := ""
  Version : String := ""
  Msteams : Msteams := {}
  deriving Repr, DecidableEq

/-- Go type `TeamsMsgAttachement`. -/
structure TeamsMsgAttachement where
  ContentType : String := ""
  Content : Content := {}
  deriving Repr, DecidableEq

/-- Go type `TeamsMsg`. -/
structure TeamsMsg where
  Type_ : String := ""
  Attachments : List TeamsMsgAttachement := []
  deriving Repr, DecidableEq

/-! ## JSON encoding (the `goccy/go-json` encoder) -/

/-- The sixteen lowercase hexadecimal digits. -/
def hexDigits : List Char := "0123456789abcdef".data

/-- The lowercase hexadecimal digit of a value below 16. -/
def hexDigit (n : Nat) : Char := hexDigits.getD n '0'

/-- Modelled from the spec: the string escaping of the JSON encoder of
`github.com/goccy/go-json` (a drop-in for `encoding/json`), which is not part of
the repository. One character of a string value is written as follows: the
quote and the backslash are backslash-escaped; line feed, carriage return and
tab are written as backslash `n`, backslash `r`, backslash `t`; any other
control character below U+0020 is written as backslash `u00XX`; when
`escapeHTML` is set, the characters U+003C, U+003E and U+0026 (the angle brackets
and the ampersand) are written as backslash `u003c`, `u003e`, `u0026`; U+2028 and
U+2029 are written as backslash `u2028`, `u2029`; every other character is
written as itself. With `escapeHTML` cleared the angle brackets are emitted
literally, which is what the spec requires of the serialisation. -/
def escapeChar (escapeHTML : Bool) (c : Char) : List Char :=
  if c = '"' then ['\\', '"']
  else if c = '\\' then ['\\', '\\']
  else if c = '\n' then ['\\', 'n']
  else if c = '\r' then ['\\', 'r']
  else if c = '\t' then ['\\', 't']
  else if c.toNat < 0x20 then ['\\', 'u', '0', '0', hexDigit (c.toNat / 16), hexDigit (c.toNat % 16)]
  else if escapeHTML && (c = '<' || c = '>' || c = '&') then
    ['\\', 'u', '0', '0', hexDigit (c.toNat / 16), hexDigit (c.toNat % 16)]
  else if c.toNat = 0x2028 || c.toNat = 0x2029 then ['\\', 'u', '2', '0', '2', hexDigit (c.toNat % 16)]
  else [c]

/-- A JSON string value: the escaped characters between double quotes. -/
def encodeString (escapeHTML : Bool) (s : String) : String :=
  "\"" ++ String.mk (s.data.flatMap (escapeChar escapeHTML)) ++ "\""

/-- A JSON boolean. -/
def encodeBool (b : Bool) : String := if b then "true" else "false"

/-- The elements of a JSON array, comma separated. -/
def encodeElems {α : Type} (f : α → String) : List α → String
  | [] => ""
  | [x] => f x
  | x :: y :: rest => f x ++ "," ++ encodeElems f (y :: rest)

/-- A slice as JSON: `null` for the nil slice (every empty slice of this program is
nil), an array otherwise. -/
def encodeSlice {α : Type} (f : α → String) (xs : List α) : String :=
  match xs with
  | [] => "null"
  | _ => "[" ++ encodeElems f xs ++ "]"

/-- A `ReviewerEntity` as JSON, fields in declaration order under their `json` tags. -/
def encodeReviewerEntity (h : Bool) (e : ReviewerEntity) : String :=
  "\x7b\"type\":" ++ encodeString h e.Type_ ++ ",\"text\":" ++ encodeString h e.Text
    ++ ",\"mentioned\":\x7b\"id\":" ++ encodeString h e.Mentioned.ID
    ++ ",\"name\":" ++ encodeString h e.Mentioned.Name ++ "\x7d\x7d"

/-- A `TeamsMsgBody` as JSON; `size` and `weight` are `omitempty`. -/
def encodeTeamsMsgBody (h : Bool) (b : TeamsMsgBody) : String :=
  "\x7b\"type\":" ++ encodeString h b.Type_
    ++ (if b.Size = "" then "" else ",\"size\":" ++ encodeString h b.Size)
    ++ (if b.Weight = "" then "" else ",\"weight\":" ++ encodeString h b.Weight)
    ++ ",\"text\":" ++ encodeString h b.Text ++ ",\"wrap\":" ++ encodeBool b.Wrap ++ "\x7d"

/-- The `msteams` object as JSON. -/
def encodeMsteams (h : Bool) (m : Msteams) : String :=
  "\x7b\"width\":" ++ encodeString h m.Width ++ ",\"entities\":"
    ++ encodeSlice (encodeReviewerEntity h) m.Entities ++ "\x7d"

/-- The `content` object as JSON. -/
def encodeContent (h : Bool) (c : Content) : String :=
  "\x7b\"type\":" ++ encodeString h c.Type_ ++ ",\"body\":" ++ encodeSlice (encodeTeamsMsgBody h) c.Body
    ++ ",\"$schema\":" ++ encodeString h c.Schema ++ ",\"version\":" ++ encodeString h c.Version
    ++ ",\"msteams\":" ++ encodeMsteams h c.Msteams ++ "\x7d"

/-- A `TeamsMsgAttachement` as JSON. -/
def encodeTeamsMsgAttachement (h : Bool) (a : TeamsMsgAttachement) : String :=
  "\x7b\"contentType\":" ++ encodeString h a.ContentType ++ ",\"content\":"
    ++ encodeContent h a.Content ++ "\x7d"

/-- A `TeamsMsg` as JSON. -/
def encodeTeamsMsg (h : Bool) (t : TeamsMsg) : String :=
  "\x7b\"type\":" ++ encodeString h t.Type_ ++ ",\"attachments\":"
    ++ encodeSlice (encodeTeamsMsgAttachement h) t.Attachments ++ "\x7d"

/-- The state of a `json.Encoder` that matters here: whether `<`, `>`, `&` are escaped. -/
structure Encoder where
  escapeHTML : Bool
  deriving Repr, DecidableEq

/-- The `json.NewEncoder(buffer)` call: a new encoder escapes HTML characters. -/
def NewEncoder : Encoder := ⟨true⟩

/-- The `encoder.SetEscapeHTML(escape)` call. -/
def Encoder.SetEscapeHTML (e : Encoder) (escape : Bool) : Encoder :=
  { e with escapeHTML := escape }

/-- The `encoder.Encode(t)` call on a `TeamsMsg`: the bytes written to the buffer (the JSON
value followed by a newline) and the error, which does not occur for a value made
of strings, booleans, structs and slices. -/
def Encoder.Encode (e : Encoder) (t : TeamsMsg) : String × Option String :=
  (encodeTeamsMsg e.escapeHTML t ++ "\n", none)

/-- Method `(t *TeamsMsg) NonEscapedJSON()`: encode with HTML escaping switched off. -/
def TeamsMsg.NonEscapedJSON (t : TeamsMsg) : String × Option String :=
  let encoder := NewEncoder
  let encoder := encoder.SetEscapeHTML false
  encoder.Encode t

/-! ## `ParsePR` -/

/-- The variables the reviewer loop of `ParsePR` updates. -/
structure LoopState where
  reviewersList : String
  reviewersEntity : ReviewerEntity
  reviewersEntityList : ReviewerEntitiesList
  deriving Repr, DecidableEq

/-- The state before the loop: `reviewersList = ""`, a zero `reviewersEntity` whose
`Type` has been set to `"mention"`, and a nil `reviewersEntityList`. -/
def ParsePR.init : LoopState :=
  { reviewersList := "", reviewersEntity := { Type_ := "mention" }, reviewersEntityList := [] }

/-- One iteration of `for _, val := range inventory.PullRequest.Reviewers`. -/
def ParsePR.step (st : LoopState) (val : BitBucketReviewer) : LoopState :=
  let text := "<at>" ++ val.User.Name ++ " UPN</at>"
  let reviewersList := st.reviewersList ++ (text ++ ", ")
  let reviewersEntity := { st.reviewersEntity with Text := text }
  let reviewersEntity :=
    { reviewersEntity with Mentioned := { reviewersEntity.Mentioned with ID := val.User.EmailAddress } }
  let reviewersEntity :=
    { reviewersEntity with Mentioned := { reviewersEntity.Mentioned with Name := val.User.DisplayName } }
  { reviewersList := reviewersList, reviewersEntity := reviewersEntity,
    reviewersEntityList := st.reviewersEntityList ++ [reviewersEntity] }

/-- The state after the whole reviewer loop. -/
def ParsePR.loop (inventory : BitBucketPREvent) : LoopState :=
  inventory.PullRequest.Reviewers.foldl ParsePR.step ParsePR.init

/-- The `reviewersEntity` variable after the three assignments that follow the loop:
the mention of the pull request's author. -/
def ParsePR.authorEntity (inventory : BitBucketPREvent) : ReviewerEntity :=
  let reviewersEntity := (ParsePR.loop inventory).reviewersEntity
  let reviewersEntity :=
    { reviewersEntity with
      Mentioned := { reviewersEntity.Mentioned with ID := inventory.PullRequest.Author.User.EmailAddress } }
  let reviewersEntity :=
    { reviewersEntity with
      Mentioned := { reviewersEntity.Mentioned with Name := inventory.PullRequest.Author.User.DisplayName } }
  { reviewersEntity with Text := "<at>" ++ inventory.PullRequest.Author.User.Name ++ " UPN</at>" }

/-- The `reviewersEntityList` variable after the author has been appended. -/
def ParsePR.reviewersEntityList (inventory : BitBucketPREvent) : ReviewerEntitiesList :=
  (ParsePR.loop inventory).reviewersEntityList ++ [ParsePR.authorEntity inventory]

/-- The `reviewersList` variable after `strings.TrimRight(reviewersList, ", ")`. -/
def ParsePR.reviewersList (inventory : BitBucketPREvent) : String :=
  TrimRight (ParsePR.loop inventory).reviewersList ", "

/-- The third argument of the first `Sprintf`: `strings.TrimLeft(inventory.EventKey, "pr:")`. -/
def ParsePR.eventKeySuffix (inventory : BitBucketPREvent) : String :=
  TrimLeft inventory.EventKey "pr:"

/-- The `bodyText` variable: the two `Sprintf` results concatenated. Evaluating the
last argument of the first one reads `inventory.PullRequest.Links.Self[0]`. -/
def ParsePR.bodyText (inventory : BitBucketPREvent) : Outcome String :=
  (index inventory.PullRequest.Links.Self 0).andThen fun self0 =>
    let bodyText := "Hi Team, " ++ (ParsePR.authorEntity inventory).Text ++ " "
      ++ ParsePR.eventKeySuffix inventory ++ " a PR, please review: ["
      ++ inventory.PullRequest.Title ++ "](" ++ self0.Href ++ ") \n\n"
    let bodyText := bodyText ++ ("CC: " ++ ParsePR.reviewersList inventory)
    .returned bodyText

/-- The `msg` variable when `msg.NonEscapedJSON()` is called: the card. -/
def ParsePR.msg (inventory : BitBucketPREvent) : Outcome TeamsMsg :=
  (ParsePR.bodyText inventory).andThen fun bodyText =>
    let msg : TeamsMsg := { Type_ := "message" }
    let msgAttachement : TeamsMsgAttachement := { ContentType := "application/vnd.microsoft.card.adaptive" }
    let msgAttachement := { msgAttachement with Content := { msgAttachement.Content with Type_ := "AdaptiveCard" } }
    let msgBodyList : List TeamsMsgBody := []
    let msgBody : TeamsMsgBody := { Type_ := "TextBlock" }
    let msgBody := { msgBody with Text := bodyText }
    let msgBodyList := msgBodyList ++ [msgBody]
    let msgAttachement := { msgAttachement with Content := { msgAttachement.Content with Body := msgBodyList } }
    let msgAttachement :=
      { msgAttachement with
        Content := { msgAttachement.Content with Schema := "http://adaptivecards.io/schemas/adaptive-card.json" } }
    let msgAttachement := { msgAttachement with Content := { msgAttachement.Content with Version := "1.2" } }
    let msgAttachement :=
      { msgAttachement with
        Content := { msgAttachement.Content with Msteams := { msgAttachement.Content.Msteams with Width := "Full" } } }
    let msgAttachement :=
      { msgAttachement with
        Content := { msgAttachement.Content with
          Msteams := { msgAttachement.Content.Msteams with Entities := ParsePR.reviewersEntityList inventory } } }
    let msg := { msg with Attachments := msg.Attachments ++ [msgAttachement] }
    .returned msg

/-- Function `ParsePR`, from the result of `json.Unmarshal(eventJson, &inventory)`: the
error of a failed decode, or the decoded event. A failed decode ends the process
with `os.Exit(1)`; otherwise the card is built and its serialisation is returned
(an encoding error is only logged). The `rlog` calls write to the log only and are
left out. -/
def ParsePR (unmarshal : Except String BitBucketPREvent) : Outcome String :=
  match unmarshal with
  | .error _ => .exited 1
  | .ok inventory =>
    (ParsePR.msg inventory).andThen fun msg =>
      let (b, _err) := msg.NonEscapedJSON
      .returned b

/-! ## SHA-256 and `%x` formatting -/

/-- Reduction of a natural number to a 32-bit word. -/
def word32 (x : Nat) : Nat := x % 4294967296

/-- Rotation of a 32-bit word to the right by `n` bits. -/
def rotateRight (x n : Nat) : Nat := word32 ((x >>> n) ||| (x <<< (32 - n)))

/-- Bitwise complement of a 32-bit word. -/
def complement32 (x : Nat) : Nat := 4294967295 - word32 x

/-- The choice function of the compression rounds. -/
def choose (x y z : Nat) : Nat := (x &&& y) ^^^ (complement32 x &&& z)

/-- The majority function of the compression rounds. -/
def majority (x y z : Nat) : Nat := (x &&& y) ^^^ (x &&& z) ^^^ (y &&& z)

/-- The large sigma functions of the compression rounds. -/
def bigSigma0 (x : Nat) : Nat := rotateRight x 2 ^^^ rotateRight x 13 ^^^ rotateRight x 22

/-- The second large sigma function. -/
def bigSigma1 (x : Nat) : Nat := rotateRight x 6 ^^^ rotateRight x 11 ^^^ rotateRight x 25

/-- The small sigma functions of the message schedule. -/
def smallSigma0 (x : Nat) : Nat := rotateRight x 7 ^^^ rotateRight x 18 ^^^ (x >>> 3)

/-- The second small sigma function. -/
def smallSigma1 (x : Nat) : Nat := rotateRight x 17 ^^^ rotateRight x 19 ^^^ (x >>> 10)

/-- The sixty-four round constants (fractional parts of the cube roots of the first
sixty-four primes). -/
def roundConstants : List Nat :=
  [ 1116352408, 1899447441, 3049323471, 3921009573, 961987163, 1508970993,
    2453635748, 2870763221, 3624381080, 310598401, 607225278, 1426881987,
    1925078388, 2162078206, 2614888103, 3248222580, 3835390401, 4022224774,
    264347078, 604807628, 770255983, 1249150122, 1555081692, 1996064986,
    2554220882, 2821834349, 2952996808, 3210313671, 3336571891, 3584528711,
    113926993, 338241895, 666307205, 773529912, 1294757372, 1396182291,
    1695183700, 1986661051, 2177026350, 2456956037, 2730485921, 2820302411,
    3259730800, 3345764771, 3516065817, 3600352804, 4094571909, 275423344,
    430227734, 506948616, 659060556, 883997877, 958139571, 1322822218,
    1537002063, 1747873779, 1955562222, 2024104815, 2227730452, 2361852424,
    2428436474, 2756734187, 3204031479, 3329325298 ]

/-- The eight working words of the hash. -/
structure HashState where
  a : Nat
  b : Nat
  c : Nat
  d : Nat
  e : Nat
  f : Nat
  g : Nat
  h : Nat
  deriving Repr, DecidableEq

/-- The initial hash value (fractional parts of the square roots of the first eight primes). -/
def initialHash : HashState :=
  ⟨1779033703, 3144134277, 1013904242, 2773480762, 1359893119, 2600822924, 528734635, 1541459225⟩

/-- One compression round with round constant `k` and schedule word `w`. -/
def compressRound (s : HashState) (kw : Nat × Nat) : HashState :=
  let t1 := word32 (s.h + bigSigma1 s.e + choose s.e s.f s.g + kw.1 + kw.2)
  let t2 := word32 (bigSigma0 s.a + majority s.a s.b s.c)
  ⟨word32 (t1 + t2), s.a, s.b, s.c, word32 (s.d + t1), s.e, s.f, s.g⟩

/-- The big-endian 32-bit word of four bytes. -/
def wordOfBytes (bs : List Nat) : Nat :=
  bs.getD 0 0 * 16777216 + bs.getD 1 0 * 65536 + bs.getD 2 0 * 256 + bs.getD 3 0

/-- The sixteen words of a 64-byte block, from the byte offset `4 * i` on. -/
def blockWords (block : List Nat) : List Nat :=
  (List.range 16).map fun i => wordOfBytes (block.drop (4 * i))

/-- Extension of the message schedule by `n` words. -/
def extendSchedule : Nat → List Nat → List Nat
  | 0, w => w
  | n + 1, w =>
    let t := w.length
    extendSchedule n
      (w ++ [word32 (smallSigma1 (w.getD (t - 2) 0) + w.getD (t - 7) 0
        + smallSigma0 (w.getD (t - 15) 0) + w.getD (t - 16) 0)])

/-- The compression function: the hash state after one 64-byte block. -/
def compressBlock (s : HashState) (block : List Nat) : HashState :=
  let w := extendSchedule 48 (blockWords block)
  let r := (roundConstants.zip w).foldl compressRound s
  ⟨word32 (s.a + r.a), word32 (s.b + r.b), word32 (s.c + r.c), word32 (s.d + r.d),
   word32 (s.e + r.e), word32 (s.f + r.f), word32 (s.g + r.g), word32 (s.h + r.h)⟩

/-- The big-endian bytes of the low `8 * n` bits of `x`. -/
def bigEndianBytes : Nat → Nat → List Nat
  | 0, _ => []
  | n + 1, x => bigEndianBytes n (x / 256) ++ [x % 256]

/-- The padded message: the byte `0x80`, zero bytes up to 56 modulo 64, and the bit
length as eight big-endian bytes. -/
def padMessage (msg : List Nat) : List Nat :=
  msg ++ [128] ++ List.replicate ((119 - msg.length % 64) % 64) 0 ++ bigEndianBytes 8 (8 * msg.length)

/-- The first `n` 64-byte blocks of a byte sequence. -/
def splitBlocks : Nat → List Nat → List (List Nat)
  | 0, _ => []
  | n + 1, bs => bs.take 64 :: splitBlocks n (bs.drop 64)

/-- Modelled from the spec: `sha256.Sum256` of Go's `crypto/sha256`, which is not part
of the repository; the spec names it as the SHA-256 digest. It is the
function of FIPS 180-4: the 32 bytes of the final hash state, each word
big-endian. -/
def Sum256 (data : List Nat) : List Nat :=
  let padded := padMessage data
  let s := (splitBlocks (padded.length / 64) padded).foldl compressBlock initialHash
  bigEndianBytes 4 s.a ++ bigEndianBytes 4 s.b ++ bigEndianBytes 4 s.c ++ bigEndianBytes 4 s.d
    ++ bigEndianBytes 4 s.e ++ bigEndianBytes 4 s.f ++ bigEndianBytes 4 s.g ++ bigEndianBytes 4 s.h

/-- The bytes of a Go string, `[]byte(s)`: its UTF-8 encoding. -/
def bytesOfString (s : String) : List Nat :=
  (s.data.flatMap String.utf8EncodeChar).map UInt8.toNat

/-- The verb `%x` of `fmt.Sprintf` on a byte array: two lowercase hexadecimal digits a byte. -/
def sprintfHex (bs : List Nat) : String :=
  ⟨bs.flatMap fun b => [hexDigit (b / 16 % 16), hexDigit (b % 16)]⟩

/-! ## The handler of `POST /webhookb2/:id1/IncomingWebhook/:id2/:id3` -/

/-- Function `isTraceLevel`. -/
def isTraceLevel (tLevel : Int) : Bool := tLevel ≥ 0

/-- The variables `main` reads from the environment before it registers the handler. -/
structure Config where
  teamsHost : String
  logLevel : String
  traceLevel : Int
  deriving Repr, DecidableEq

/-- What the handler reads from the inbound request: the three path parameters, the
request id that the `requestid` middleware has put in the response header
`X-Request-Id`, the request path, and the result of `json.Unmarshal` on the body. -/
structure Inbound where
  id1 : String
  id2 : String
  id3 : String
  requestID : String
  path : String
  unmarshal : Except String BitBucketPREvent

/-- The local type `SomeStruct` of `main`. -/
structure SomeStruct where
  RequestID : String
  deriving Repr, DecidableEq

/-- The outbound request the agent sends. -/
structure AgentRequest where
  method : String
  host : String
  contentType : String
  requestURI : String
  body : String
  xRequestId : String
  deriving Repr, DecidableEq

/-- The three results of `a.String()`: status code, response body and transport errors. -/
structure AgentResult where
  code : Int
  body : String
  errs : List String
  deriving Repr, DecidableEq

/-- The part of the fiber context the handler changes: the path the access log prints,
and the response status, content type and body. A new response has status 200 and an
empty body. -/
structure Ctx where
  path : String
  status : Int := 200
  contentType : String := ""
  body : String := ""
  deriving Repr, DecidableEq

/-- The `c.SendStatus(status)` call: set the status, and set the body to the status
message when the body is still empty. The table `utils.StatusMessage` of fiber is a
parameter. -/
def Ctx.SendStatus (statusMessage : Int → String) (c : Ctx) (status : Int) : Ctx :=
  let c := { c with status := status }
  if c.body = "" then { c with body := statusMessage status } else c

/-- The `c.JSON(data)` call for a `SomeStruct`: the body becomes the JSON of the struct as
the application's encoder `json.Marshal` writes it (HTML characters escaped), and the
content type `application/json`. -/
def Ctx.JSON (c : Ctx) (data : SomeStruct) : Ctx :=
  { c with body := "\x7b\"RequestID\":" ++ encodeString true data.RequestID ++ "\x7d",
           contentType := "application/json" }

/-- The `c.Path(newPath)` call: override the path of the context. -/
def Ctx.Path (c : Ctx) (newPath : String) : Ctx := { c with path := newPath }

/-- The block guarded by `(logLevel != "DEBUG") && !(isTraceLevel(traceLevel))`: the path
is overridden with the first seven hexadecimal characters of the SHA-256 digests of the
three identifiers. Without the guard the context is left as it is. -/
def redactPath (cfg : Config) (pathid1 pathid2 pathid3 : String) (c : Ctx) : Outcome Ctx :=
  if (cfg.logLevel != "DEBUG") && !(isTraceLevel cfg.traceLevel) then
    let id1 := sprintfHex (Sum256 (bytesOfString pathid1))
    let id2 := sprintfHex (Sum256 (bytesOfString pathid2))
    let id3 := sprintfHex (Sum256 (bytesOfString pathid3))
    (sliceStr id1 0 7).andThen fun h1 =>
    (sliceStr id2 0 7).andThen fun h2 =>
    (sliceStr id3 0 7).andThen fun h3 =>
      let newPath := "/webhookb2/" ++ h1 ++ "/IncomingWebhook/" ++ h2 ++ "/" ++ h3
      .returned (c.Path newPath)
  else .returned c

/-- The end of the handler, from `if code >= 400` on: the response for the result of the
outbound call. -/
def respond (statusMessage : Int → String) (data : SomeStruct) (code : Int) (errs : List String)
    (c : Ctx) : Ctx :=
  if code ≥ 400 then c.SendStatus statusMessage code
  else
    let c := errs.foldl (fun c _e => c.SendStatus statusMessage 504) c
    c.JSON data

/-- The handler. Its surroundings are parameters: the status message table, the result
`errParse` of `a.Parse()`, and `send`, the outbound call `a.String()` as a function of
the request the agent holds. The result is the request that was sent and the
context the handler leaves behind. The `rlog` calls and `a.Debug()` write to the log
only and are left out; a failed `a.Parse()` ends the process with `os.Exit(1)`. -/
def handler (cfg : Config) (statusMessage : Int → String) (errParse : Option String)
    (send : AgentRequest → AgentResult) (req : Inbound) : Outcome (AgentRequest × Ctx) :=
  let c : Ctx := { path := req.path }
  let data : SomeStruct := { RequestID := req.requestID }
  let pathid1 := req.id1
  let pathid2 := req.id2
  let pathid3 := req.id3
  (ParsePR req.unmarshal).andThen fun notificationBody =>
    match errParse with
    | some _ => .exited 1
    | none =>
      let a : AgentRequest :=
        { method := "POST", host := cfg.teamsHost, contentType := "application/json",
          requestURI := "http://" ++ cfg.teamsHost ++ "/webhookb2/" ++ pathid1
            ++ "/IncomingWebhook/" ++ pathid2 ++ "/" ++ pathid3,
          body := notificationBody, xRequestId := data.RequestID }
      let result := send a
      (redactPath cfg pathid1 pathid2 pathid3 c).andThen fun c =>
        .returned (a, respond statusMessage data result.code result.errs c)

/-! ## Reference definitions and example inputs -/

/-- The mention text of a user as the spec words it: the `name` field between the
opening tag and `" UPN"` followed by the closing tag. -/
def mentionText (u : BitBucketUser) : String := "<at>" ++ u.Name ++ " UPN</at>"

/-- The mention entity of a user by the spec's three-field mapping. -/
def mentionEntityOf (u : BitBucketUser) : ReviewerEntity :=
  { Type_ := "mention", Text := mentionText u,
    Mentioned := { ID := u.EmailAddress, Name := u.DisplayName } }

/-- The event-key suffix as the spec words it: the leading run of the two characters
`p` and `r` removed. -/
def stripLeadingPR (eventKey : String) : String :=
  ⟨eventKey.data.dropWhile fun c => c == 'p' || c == 'r'⟩

/-- The event of the spec's worked example: one reviewer `alice`, author `bob`. -/
def specExampleEvent : BitBucketPREvent :=
  { EventKey := "pr:opened",
    PullRequest :=
      { Title := "Fix bug",
        Author := { User := { Name := "bob", EmailAddress := "b@x.com", DisplayName := "Bob B" } },
        Reviewers := [{ User := { Name := "alice", EmailAddress := "a@x.com", DisplayName := "Alice A" } }],
        Links := { Self := [{ Href := "https://scm.example/prs/42" }] } } }

/-- The texts of the body blocks of a card, attachment by attachment. -/
def bodyTexts (msg : TeamsMsg) : List (List String) :=
  msg.Attachments.map fun a => a.Content.Body.map fun b => b.Text

/-- The outcome with a function applied to the returned value. -/
def Outcome.map {α β : Type} (f : α → β) (o : Outcome α) : Outcome β :=
  o.andThen fun a => .returned (f a)

/-- Whether a character is one of the two angle brackets of the mention markup. -/
def isAngleBracket (c : Char) : Bool := c == '<' || c == '>'

/-- The angle brackets of a string, in order. -/
def angleBrackets (s : String) : List Char := s.data.filter isAngleBracket

/-- The first seven characters of the lowercase hexadecimal SHA-256 digest of an
identifier, as the spec words the redaction. -/
def digestPrefix (s : String) : String :=
  ⟨(sprintfHex (Sum256 (bytesOfString s))).data.take 7⟩

/-- A configuration below DEBUG and TRACE: log level `INFO`, no trace level. -/
def quietConfig : Config := { teamsHost := "teams.example", logLevel := "INFO", traceLevel := -1 }

/-- An inbound request that carries the spec's example event. -/
def exampleInbound : Inbound :=
  { id1 := "a", id2 := "b", id3 := "c", requestID := "rid-1",
    path := "/webhookb2/a/IncomingWebhook/b/c", unmarshal := .ok specExampleEvent }

/-! ## Lemmas on the reviewer loop -/

theorem step_entity (st : LoopState) (val : BitBucketReviewer)
    (hT : st.reviewersEntity.Type_ = "mention") :
    (ParsePR.step st val).reviewersEntity = mentionEntityOf val.User := by
  obtain ⟨l, ⟨t, x, m⟩, es⟩ := st
  simp only at hT
  subst hT
  rfl

theorem step_list (st : LoopState) (val : BitBucketReviewer) :
    (ParsePR.step st val).reviewersEntityList
      = st.reviewersEntityList ++ [(ParsePR.step st val).reviewersEntity] := rfl

theorem step_text (st : LoopState) (val : BitBucketReviewer) :
    (ParsePR.step st val).reviewersList.data
      = st.reviewersList.data ++ ((mentionText val.User).data ++ [',', ' ']) := by
  simp [ParsePR.step, mentionText, String.data_append]

theorem foldl_step (rs : List BitBucketReviewer) :
    ∀ st : LoopState, st.reviewersEntity.Type_ = "mention" →
      (rs.foldl ParsePR.step st).reviewersEntity.Type_ = "mention" ∧
      (rs.foldl ParsePR.step st).reviewersEntityList
        = st.reviewersEntityList ++ rs.map (fun r => mentionEntityOf r.User) ∧
      (rs.foldl ParsePR.step st).reviewersList.data
        = st.reviewersList.data
          ++ (rs.map fun r => (mentionText r.User).data ++ [',', ' ']).flatten := by
  induction rs with
  | nil => intro st hT; simp [hT]
  | cons r rs ih =>
    intro st hT
    have hE := step_entity st r hT
    have hT2 : (ParsePR.step st r).reviewersEntity.Type_ = "mention" := by rw [hE]; rfl
    obtain ⟨h1, h2, h3⟩ := ih (ParsePR.step st r) hT2
    refine ⟨by simpa using h1, ?_, ?_⟩
    · simp only [List.foldl_cons, h2, step_list, hE, List.map_cons, List.append_assoc,
        List.singleton_append]
    · simp only [List.foldl_cons, h3, step_text, List.map_cons, List.flatten_cons,
        List.append_assoc]

theorem loop_spec (inventory : BitBucketPREvent) :
    (ParsePR.loop inventory).reviewersEntity.Type_ = "mention" ∧
    (ParsePR.loop inventory).reviewersEntityList
      = inventory.PullRequest.Reviewers.map (fun r => mentionEntityOf r.User) ∧
    (ParsePR.loop inventory).reviewersList.data
      = (inventory.PullRequest.Reviewers.map
          fun r => (mentionText r.User).data ++ [',', ' ']).flatten := by
  have h := foldl_step inventory.PullRequest.Reviewers ParsePR.init rfl
  simpa [ParsePR.loop, ParsePR.init] using h

theorem authorEntity_eq (inventory : BitBucketPREvent) :
    ParsePR.authorEntity inventory = mentionEntityOf inventory.PullRequest.Author.User := by
  have hT := (loop_spec inventory).1
  unfold ParsePR.authorEntity
  generalize (ParsePR.loop inventory).reviewersEntity = e at hT
  obtain ⟨t, x, m⟩ := e
  simp only at hT
  subst hT
  rfl

theorem reviewersEntityList_eq (inventory : BitBucketPREvent) :
    ParsePR.reviewersEntityList inventory
      = inventory.PullRequest.Reviewers.map (fun r => mentionEntityOf r.User)
        ++ [mentionEntityOf inventory.PullRequest.Author.User] := by
  rw [ParsePR.reviewersEntityList, (loop_spec inventory).2.1, authorEntity_eq]

/-! ## Lemmas on trimming and joining -/

theorem trimLeftLoop_stop (cs : List Char) (c : Char) (s : List Char)
    (h : cs.contains c = false) : trimLeftLoop cs (c :: s) = c :: s := by
  rw [trimLeftLoop, h]; rfl

theorem trimLeftLoop_drop (cs : List Char) (c : Char) (s : List Char)
    (h : cs.contains c = true) : trimLeftLoop cs (c :: s) = trimLeftLoop cs s := by
  rw [trimLeftLoop, h]; rfl

theorem trimRightLoop_stop (cs : List Char) (c : Char) (s : List Char)
    (h : cs.contains c = false) : trimRightLoop cs (s ++ [c]) = s ++ [c] := by
  simp [trimRightLoop, trimLeftLoop_stop cs c _ h]

theorem trimRightLoop_drop (cs : List Char) (c : Char) (s : List Char)
    (h : cs.contains c = true) : trimRightLoop cs (s ++ [c]) = trimRightLoop cs s := by
  simp [trimRightLoop, trimLeftLoop_drop cs c _ h]

theorem intercalate_concat (sep : List Char) (init : List (List Char)) (last : List Char) :
    List.intercalate sep (init ++ [last]) = (init.map (· ++ sep)).flatten ++ last := by
  induction init with
  | nil => simp [List.intercalate]
  | cons t ts ih =>
    cases ts with
    | nil => simp [List.intercalate]
    | cons u us =>
      simp only [List.intercalate, List.cons_append, List.intersperse_cons_cons,
        List.flatten_cons, List.map_cons, List.append_assoc] at ih ⊢
      rw [ih]

theorem intercalate_go_data (s : String) (l : List String) :
    ∀ acc : String, (String.intercalate.go acc s l).data
      = acc.data ++ (l.map fun a => s.data ++ a.data).flatten := by
  induction l with
  | nil => intro acc; simp [String.intercalate.go]
  | cons a l ih => intro acc; simp [String.intercalate.go, ih, String.data_append]

theorem list_intercalate_cons (sep : List Char) (l : List (List Char)) :
    ∀ a : List Char, List.intercalate sep (a :: l) = a ++ (l.map fun b => sep ++ b).flatten := by
  induction l with
  | nil => intro a; simp [List.intercalate]
  | cons b l ih =>
    intro a
    have h := ih b
    simp only [List.intercalate, List.intersperse_cons_cons, List.flatten_cons, List.map_cons,
      List.append_assoc] at h ⊢
    rw [h]

theorem intercalate_data (s : String) (l : List String) :
    (s.intercalate l).data = List.intercalate s.data (l.map String.data) := by
  cases l with
  | nil => simp [String.intercalate, List.intercalate]
  | cons a l =>
    rw [String.intercalate, intercalate_go_data, List.map_cons, list_intercalate_cons,
      List.map_map]
    rfl

/-- The mention text ends in the character `>`. -/
theorem mentionText_data (u : BitBucketUser) :
    (mentionText u).data = ("<at>".data ++ u.Name.data ++ " UPN</at".data) ++ ['>'] := by
  simp [mentionText, String.data_append]

/-- The accumulated list trimmed on the right is the list of texts joined by `", "`. -/
theorem trim_accumulated (us : List BitBucketUser) :
    trimRightLoop [',', ' '] (us.map fun u => (mentionText u).data ++ [',', ' ']).flatten
      = List.intercalate [',', ' '] (us.map fun u => (mentionText u).data) := by
  rcases List.eq_nil_or_concat us with h | ⟨init, last, h⟩
  · subst h; rfl
  · subst h
    rw [List.concat_eq_append]
    have e1 : ((init ++ [last]).map fun u => (mentionText u).data ++ [',', ' ']).flatten
        = (((init.map fun u => (mentionText u).data ++ [',', ' ']).flatten
            ++ ("<at>".data ++ last.Name.data ++ " UPN</at".data) ++ ['>']) ++ [',']) ++ [' '] := by
      simp [mentionText_data]
    rw [e1, trimRightLoop_drop _ _ _ (by decide), trimRightLoop_drop _ _ _ (by decide),
      trimRightLoop_stop _ _ _ (by decide)]
    have e2 : (init ++ [last]).map (fun u => (mentionText u).data)
        = init.map (fun u => (mentionText u).data) ++ [(mentionText last).data] := by simp
    rw [e2, intercalate_concat, mentionText_data, List.map_map]
    simp [Function.comp_def]

theorem reviewersList_data (inventory : BitBucketPREvent) :
    (ParsePR.reviewersList inventory).data
      = List.intercalate [',', ' ']
          (inventory.PullRequest.Reviewers.map fun r => (mentionText r.User).data) := by
  have h := trim_accumulated (inventory.PullRequest.Reviewers.map fun r => r.User)
  simp only [List.map_map, Function.comp_def] at h
  rw [← h, ParsePR.reviewersList, TrimRight, (loop_spec inventory).2.2]

theorem reviewersList_eq (inventory : BitBucketPREvent) :
    ParsePR.reviewersList inventory
      = ", ".intercalate (inventory.PullRequest.Reviewers.map fun r => mentionText r.User) := by
  apply String.ext
  rw [reviewersList_data, intercalate_data, List.map_map]
  rfl

/-- A joined list of mention texts is empty or ends in `>`. -/
theorem joined_ends (us : List BitBucketUser) :
    List.intercalate [',', ' '] (us.map fun u => (mentionText u).data) = []
      ∨ ∃ x, List.intercalate [',', ' '] (us.map fun u => (mentionText u).data) = x ++ ['>'] := by
  rcases List.eq_nil_or_concat us with h | ⟨init, last, h⟩
  · subst h; left; rfl
  · subst h
    right
    rw [List.concat_eq_append, List.map_append, List.map_singleton, intercalate_concat, mentionText_data]
    exact ⟨_, (List.append_assoc _ _ _).symm⟩

theorem not_suffix_of_ends (x : List Char) : ¬ ([',', ' '] <:+ x ++ ['>']) := by
  rintro ⟨p, hp⟩
  have h := congrArg List.getLast? hp
  simp at h

/-! ## Lemmas on the card -/

theorem trimLeftLoop_spec (cs : List Char) (s : List Char) :
    ∃ run, s = run ++ trimLeftLoop cs s ∧ (∀ c ∈ run, cs.contains c = true) ∧
      ∀ c, (trimLeftLoop cs s).head? = some c → cs.contains c = false := by
  induction s with
  | nil => exact ⟨[], rfl, by simp, by simp [trimLeftLoop]⟩
  | cons a s ih =>
    by_cases h : cs.contains a = true
    · obtain ⟨run, h1, h2, h3⟩ := ih
      rw [trimLeftLoop_drop cs a s h]
      refine ⟨a :: run, by rw [List.cons_append, ← h1], ?_, h3⟩
      intro c hc
      rcases List.mem_cons.1 hc with rfl | hc
      · exact h
      · exact h2 c hc
    · have h' : cs.contains a = false := by simpa using h
      rw [trimLeftLoop_stop cs a s h']
      refine ⟨[], rfl, by simp, ?_⟩
      intro c hc
      simp only [List.head?_cons, Option.some.injEq] at hc
      subst hc
      exact h'

theorem index_zero_cons {α : Type} (l : α) (ls : List α) : index (l :: ls) 0 = .returned l := rfl

theorem index_zero_nil {α : Type} : index ([] : List α) 0 = .indexOutOfRange := rfl

theorem bodyText_cons (inventory : BitBucketPREvent) (l : Link) (ls : List Link)
    (h : inventory.PullRequest.Links.Self = l :: ls) :
    ParsePR.bodyText inventory
      = .returned ("Hi Team, " ++ mentionText inventory.PullRequest.Author.User ++ " "
          ++ ParsePR.eventKeySuffix inventory ++ " a PR, please review: ["
          ++ inventory.PullRequest.Title ++ "](" ++ l.Href ++ ") \n\n"
          ++ ("CC: " ++ ParsePR.reviewersList inventory)) := by
  rw [ParsePR.bodyText, h, index_zero_cons, authorEntity_eq]
  rfl

theorem bodyText_nil (inventory : BitBucketPREvent)
    (h : inventory.PullRequest.Links.Self = []) :
    ParsePR.bodyText inventory = .indexOutOfRange := by
  rw [ParsePR.bodyText, h, index_zero_nil]
  rfl

/-- The card for a given body text and entity list. -/
theorem msg_of_bodyText (inventory : BitBucketPREvent) (bodyText : String)
    (h : ParsePR.bodyText inventory = .returned bodyText) :
    ParsePR.msg inventory = .returned
      { Type_ := "message",
        Attachments :=
          [{ ContentType := "application/vnd.microsoft.card.adaptive",
             Content :=
               { Type_ := "AdaptiveCard",
                 Body := [{ Type_ := "TextBlock", Text := bodyText }],
                 Schema := "http://adaptivecards.io/schemas/adaptive-card.json",
                 Version := "1.2",
                 Msteams := { Width := "Full", Entities := ParsePR.reviewersEntityList inventory } } }] } := by
  rw [ParsePR.msg, h]
  rfl

theorem mem_occurs_intercalate (sep : List Char) (ts : List (List Char)) (t : List Char)
    (h : t ∈ ts) : t <:+: List.intercalate sep ts := by
  cases ts with
  | nil => simp at h
  | cons a l =>
    rw [list_intercalate_cons]
    rcases List.mem_cons.1 h with rfl | h
    · exact (List.prefix_append _ _).isInfix
    · have h1 : sep ++ t ∈ l.map fun b => sep ++ b := List.mem_map.2 ⟨t, h, rfl⟩
      have h2 : sep ++ t <:+: (l.map fun b => sep ++ b).flatten := List.infix_of_mem_flatten h1
      have h3 : t <:+: sep ++ t := (List.suffix_append _ _).isInfix
      exact (h3.trans h2).trans (List.suffix_append _ _).isInfix


theorem foldl_append_data (l : List String) :
    ∀ acc : String, (l.foldl (fun r s => r ++ s) acc).data
      = acc.data ++ (l.map String.data).flatten := by
  induction l with
  | nil => intro acc; simp
  | cons a l ih => intro acc; simp [ih, String.data_append]

theorem join_data (l : List String) : (String.join l).data = (l.map String.data).flatten := by
  rw [String.join, foldl_append_data]
  rfl

theorem flatten_eq_intercalate_append (sep : List Char) (ts : List (List Char)) (h : ts ≠ []) :
    (ts.map (· ++ sep)).flatten = List.intercalate sep ts ++ sep := by
  rcases List.eq_nil_or_concat ts with h0 | ⟨init, last, h1⟩
  · exact absurd h0 h
  · subst h1
    rw [List.concat_eq_append, intercalate_concat]
    simp

/-! ## Lemmas on the serialisation -/

theorem hexDigit_mem (n : Nat) : hexDigit n ∈ hexDigits := by
  unfold hexDigit
  rw [List.getD_eq_getElem?_getD]
  cases h : hexDigits[n]? with
  | none => decide
  | some c => exact List.getElem?_mem h

theorem hexDigit_not_angle (n : Nat) : isAngleBracket (hexDigit n) = false := by
  have hall : hexDigits.all (fun c => !isAngleBracket c) = true := by decide
  have h := List.all_eq_true.1 hall (hexDigit n) (hexDigit_mem n)
  simpa using h

/-- With HTML escaping off, the encoding of one character holds the angle brackets of
that character and no other. -/
theorem escapeChar_filter (c : Char) :
    (escapeChar false c).filter isAngleBracket = [c].filter isAngleBracket := by
  unfold escapeChar
  split_ifs with h1 h2 h3 h4 h5 h6 h7 h8
  · subst h1; decide
  · subst h2; decide
  · subst h3; decide
  · subst h4; decide
  · subst h5; decide
  · have hc : isAngleBracket c = false := by
      simp only [isAngleBracket, Bool.or_eq_false_iff, beq_eq_false_iff_ne, ne_eq]
      constructor <;> rintro rfl <;> simp at h6
    have e1 : isAngleBracket '\\' = false := by decide
    have e2 : isAngleBracket 'u' = false := by decide
    have e3 : isAngleBracket '0' = false := by decide
    simp [List.filter_cons, hexDigit_not_angle, hc, e1, e2, e3]
  · simp at h7
  · have hc : isAngleBracket c = false := by
      simp only [isAngleBracket, Bool.or_eq_false_iff, beq_eq_false_iff_ne, ne_eq]
      constructor <;> rintro rfl <;> simp at h8
    have e1 : isAngleBracket '\\' = false := by decide
    have e2 : isAngleBracket 'u' = false := by decide
    have e3 : isAngleBracket '0' = false := by decide
    have e4 : isAngleBracket '2' = false := by decide
    simp [List.filter_cons, hexDigit_not_angle, hc, e1, e2, e3, e4]
  · rfl

theorem flatMap_escape_filter (s : List Char) :
    (s.flatMap (escapeChar false)).filter isAngleBracket = s.filter isAngleBracket := by
  induction s with
  | nil => rfl
  | cons c s ih =>
    rw [List.flatMap_cons, List.filter_append, ih, escapeChar_filter]
    rw [← List.filter_append]
    rfl

theorem encodeString_data (h : Bool) (s : String) :
    (encodeString h s).data = '"' :: (s.data.flatMap (escapeChar h) ++ ['"']) := by
  simp [encodeString, String.data_append]

/-- The JSON string value of a text, written with HTML escaping off, holds exactly the
angle brackets of the text, in the text's order. -/
theorem encodeString_filter (s : String) :
    (encodeString false s).data.filter isAngleBracket = s.data.filter isAngleBracket := by
  rw [encodeString_data]
  have e1 : isAngleBracket '"' = false := by decide
  simp [List.filter_cons, List.filter_append, e1, flatMap_escape_filter]

theorem escapeChar_angle (c : Char) (h : isAngleBracket c = true) : escapeChar false c = [c] := by
  have hc : c = '<' ∨ c = '>' := by simpa [isAngleBracket] using h
  rcases hc with rfl | rfl <;> decide

theorem escapeChar_ne_escape (c : Char) :
    escapeChar false c ≠ ['\\', 'u', '0', '0', '3', 'c'] ∧
      escapeChar false c ≠ ['\\', 'u', '0', '0', '3', 'e'] := by
  unfold escapeChar
  split_ifs with h1 h2 h3 h4 h5 h6 h7 h8
  · simp
  · simp
  · simp
  · simp
  · simp
  · have hlt : c.toNat / 16 < 2 := by omega
    have h3 : hexDigit (c.toNat / 16) ≠ '3' := by
      interval_cases (c.toNat / 16) <;> decide
    simp [h3]
  · simp at h7
  · simp
  · simp

theorem occurs_left (a b : String) (x : List Char) (h : x <:+: a.data) : x <:+: (a ++ b).data := by
  rw [String.data_append]
  exact h.trans (List.prefix_append _ _).isInfix

theorem occurs_right (a b : String) : b.data <:+: (a ++ b).data := by
  rw [String.data_append]
  exact (List.suffix_append _ _).isInfix

theorem occurs_mid (a b c : String) : b.data <:+: (a ++ b ++ c).data := by
  rw [String.data_append, String.data_append]
  exact ⟨a.data, c.data, rfl⟩

theorem encodeElems_occurs {α : Type} (f : α → String) (xs : List α) (x : α) (h : x ∈ xs) :
    (f x).data <:+: (encodeElems f xs).data := by
  induction xs with
  | nil => simp at h
  | cons y ys ih =>
    cases ys with
    | nil =>
      simp only [List.mem_singleton] at h
      subst h
      exact List.infix_refl _
    | cons z zs =>
      rw [encodeElems]
      rcases List.mem_cons.1 h with rfl | h
      · simp only [String.data_append, List.append_assoc]
        exact (List.prefix_append _ _).isInfix
      · rw [String.data_append]
        exact (ih h).trans (List.suffix_append _ _).isInfix

theorem encodeSlice_occurs {α : Type} (f : α → String) (xs : List α) (x : α) (h : x ∈ xs) :
    (f x).data <:+: (encodeSlice f xs).data := by
  cases xs with
  | nil => simp at h
  | cons y ys =>
    exact (encodeElems_occurs f (y :: ys) x h).trans (occurs_mid "[" _ "]")

theorem entity_text_occurs (e : ReviewerEntity) :
    (encodeString false e.Text).data <:+: (encodeReviewerEntity false e).data := by
  unfold encodeReviewerEntity
  exact occurs_left _ _ _ (occurs_left _ _ _ (occurs_left _ _ _ (occurs_left _ _ _
    (occurs_left _ _ _ (occurs_right _ _)))))

theorem body_text_occurs (b : TeamsMsgBody) :
    (encodeString false b.Text).data <:+: (encodeTeamsMsgBody false b).data := by
  unfold encodeTeamsMsgBody
  exact occurs_left _ _ _ (occurs_left _ _ _ (occurs_left _ _ _ (occurs_right _ _)))

/-- In the serialisation of a card with one attachment, the JSON string value of the text
of every body block and of every entity occurs. -/
theorem card_texts_occur (ty ct : String) (c : Content) :
    (∀ b ∈ c.Body, (encodeString false b.Text).data
        <:+: (encodeTeamsMsg false
          { Type_ := ty, Attachments := [{ ContentType := ct, Content := c }] }).data) ∧
      ∀ e ∈ c.Msteams.Entities, (encodeString false e.Text).data
        <:+: (encodeTeamsMsg false
          { Type_ := ty, Attachments := [{ ContentType := ct, Content := c }] }).data := by
  have hatt : (encodeContent false c).data
      <:+: (encodeTeamsMsg false
        { Type_ := ty, Attachments := [{ ContentType := ct, Content := c }] }).data := by
    have h1 : (encodeContent false c).data
        <:+: (encodeTeamsMsgAttachement false { ContentType := ct, Content := c }).data := by
      unfold encodeTeamsMsgAttachement
      exact occurs_left _ _ _ (occurs_right _ _)
    have h2 : (encodeTeamsMsgAttachement false { ContentType := ct, Content := c }).data
        <:+: (encodeSlice (encodeTeamsMsgAttachement false)
          [{ ContentType := ct, Content := c }]).data :=
      encodeSlice_occurs _ _ _ (List.mem_singleton.2 rfl)
    have h3 : (encodeSlice (encodeTeamsMsgAttachement false)
          [{ ContentType := ct, Content := c }]).data
        <:+: (encodeTeamsMsg false
          { Type_ := ty, Attachments := [{ ContentType := ct, Content := c }] }).data := by
      unfold encodeTeamsMsg
      exact occurs_left _ _ _ (occurs_right _ _)
    exact (h1.trans h2).trans h3
  constructor
  · intro b hb
    have h1 := (body_text_occurs b).trans (encodeSlice_occurs (encodeTeamsMsgBody false) c.Body b hb)
    have h2 : (encodeSlice (encodeTeamsMsgBody false) c.Body).data <:+: (encodeContent false c).data := by
      unfold encodeContent
      exact occurs_left _ _ _ (occurs_left _ _ _ (occurs_left _ _ _ (occurs_left _ _ _
        (occurs_left _ _ _ (occurs_left _ _ _ (occurs_left _ _ _ (occurs_right _ _)))))))
    exact (h1.trans h2).trans hatt
  · intro e he
    have h1 := (entity_text_occurs e).trans
      (encodeSlice_occurs (encodeReviewerEntity false) c.Msteams.Entities e he)
    have h2 : (encodeSlice (encodeReviewerEntity false) c.Msteams.Entities).data
        <:+: (encodeMsteams false c.Msteams).data := by
      unfold encodeMsteams
      exact occurs_left _ _ _ (occurs_right _ _)
    have h3 : (encodeMsteams false c.Msteams).data <:+: (encodeContent false c).data := by
      unfold encodeContent
      exact occurs_left _ _ _ (occurs_right _ _)
    exact ((h1.trans h2).trans h3).trans hatt

theorem angleBrackets_append (a b : String) :
    angleBrackets (a ++ b) = angleBrackets a ++ angleBrackets b := by
  simp [angleBrackets, String.data_append]

theorem angleBrackets_encodeString (s : String) :
    angleBrackets (encodeString false s) = angleBrackets s := encodeString_filter s

theorem angleBrackets_encodeElems {α : Type} (f : α → String) (xs : List α) :
    angleBrackets (encodeElems f xs) = xs.flatMap fun x => angleBrackets (f x) := by
  induction xs with
  | nil => rfl
  | cons y ys ih =>
    cases ys with
    | nil => simp [encodeElems]
    | cons z zs =>
      rw [encodeElems, angleBrackets_append, angleBrackets_append, ih, List.flatMap_cons]
      have e : angleBrackets "," = [] := by decide
      rw [e, List.append_nil]
      simp only [List.flatMap_cons]

theorem angleBrackets_encodeSlice {α : Type} (f : α → String) (xs : List α) :
    angleBrackets (encodeSlice f xs) = xs.flatMap fun x => angleBrackets (f x) := by
  cases xs with
  | nil =>
    have e0 : angleBrackets "null" = [] := by decide
    simp [encodeSlice, e0]
  | cons y ys =>
    have e1 : angleBrackets "[" = [] := by decide
    have e2 : angleBrackets "]" = [] := by decide
    simp only [encodeSlice, angleBrackets_append, angleBrackets_encodeElems, e1, e2,
      List.append_nil, List.nil_append]

theorem angleBrackets_entity (e : ReviewerEntity) :
    angleBrackets (encodeReviewerEntity false e)
      = angleBrackets e.Type_ ++ angleBrackets e.Text ++ angleBrackets e.Mentioned.ID
        ++ angleBrackets e.Mentioned.Name := by
  have e1 : angleBrackets "\x7b\"type\":" = [] := by decide
  have e2 : angleBrackets ",\"text\":" = [] := by decide
  have e3 : angleBrackets ",\"mentioned\":\x7b\"id\":" = [] := by decide
  have e4 : angleBrackets ",\"name\":" = [] := by decide
  have e5 : angleBrackets "\x7d\x7d" = [] := by decide
  simp only [encodeReviewerEntity, angleBrackets_append, angleBrackets_encodeString, e1, e2, e3,
    e4, e5, List.append_nil, List.nil_append]

/-- The angle brackets of the serialisation of the card that `ParsePR` builds are those of
the body text followed by those of the entities' string fields. -/
theorem angleBrackets_card (bodyText : String) (entities : ReviewerEntitiesList) :
    angleBrackets (encodeTeamsMsg false
      { Type_ := "message",
        Attachments :=
          [{ ContentType := "application/vnd.microsoft.card.adaptive",
             Content :=
               { Type_ := "AdaptiveCard",
                 Body := [{ Type_ := "TextBlock", Text := bodyText }],
                 Schema := "http://adaptivecards.io/schemas/adaptive-card.json",
                 Version := "1.2",
                 Msteams := { Width := "Full", Entities := entities } } }] })
      = angleBrackets bodyText ++ entities.flatMap fun e =>
          angleBrackets e.Type_ ++ angleBrackets e.Text ++ angleBrackets e.Mentioned.ID
            ++ angleBrackets e.Mentioned.Name := by
  have c1 : angleBrackets "\x7b\"type\":" = [] := by decide
  have c2 : angleBrackets ",\"attachments\":" = [] := by decide
  have c3 : angleBrackets "\x7d" = [] := by decide
  have c4 : angleBrackets "\x7b\"contentType\":" = [] := by decide
  have c5 : angleBrackets ",\"content\":" = [] := by decide
  have c6 : angleBrackets ",\"body\":" = [] := by decide
  have c7 : angleBrackets ",\"$schema\":" = [] := by decide
  have c8 : angleBrackets ",\"version\":" = [] := by decide
  have c9 : angleBrackets ",\"msteams\":" = [] := by decide
  have c10 : angleBrackets "\x7b\"width\":" = [] := by decide
  have c11 : angleBrackets ",\"entities\":" = [] := by decide
  have c12 : angleBrackets ",\"text\":" = [] := by decide
  have c13 : angleBrackets ",\"wrap\":" = [] := by decide
  have c14 : angleBrackets "message" = [] := by decide
  have c15 : angleBrackets "application/vnd.microsoft.card.adaptive" = [] := by decide
  have c16 : angleBrackets "AdaptiveCard" = [] := by decide
  have c17 : angleBrackets "TextBlock" = [] := by decide
  have c18 : angleBrackets "http://adaptivecards.io/schemas/adaptive-card.json" = [] := by decide
  have c19 : angleBrackets "1.2" = [] := by decide
  have c20 : angleBrackets "Full" = [] := by decide
  have c21 : angleBrackets (encodeBool false) = [] := by decide
  have c22 : angleBrackets "" = [] := by decide
  have hb : angleBrackets (encodeTeamsMsgBody false { Type_ := "TextBlock", Text := bodyText })
      = angleBrackets bodyText := by
    simp only [encodeTeamsMsgBody, if_true, angleBrackets_append, angleBrackets_encodeString, c1,
      c3, c12, c13, c17, c21, c22, List.append_nil, List.nil_append]
  simp only [encodeTeamsMsg, encodeTeamsMsgAttachement, encodeContent, encodeMsteams,
    angleBrackets_append, angleBrackets_encodeString, angleBrackets_encodeSlice,
    angleBrackets_entity, hb, List.flatMap_cons, List.flatMap_nil,
    c1, c2, c3, c4, c5, c6, c7, c8, c9, c10, c11, c14, c15, c16, c18, c19, c20,
    List.append_nil, List.nil_append]

/-! ## Lemmas on the digest and on the handler -/

theorem bigEndianBytes_length (n x : Nat) : (bigEndianBytes n x).length = n := by
  induction n generalizing x with
  | zero => rfl
  | succ n ih => simp [bigEndianBytes, ih]

/-- The digest has 32 bytes, as the array type `[32]byte` of `Sum256` says. -/
theorem Sum256_length (data : List Nat) : (Sum256 data).length = 32 := by
  simp [Sum256, bigEndianBytes_length]

theorem sprintfHex_length (bs : List Nat) : (sprintfHex bs).data.length = 2 * bs.length := by
  induction bs with
  | nil => rfl
  | cons b bs ih =>
    simp only [sprintfHex, List.flatMap_cons, List.length_append, List.length_cons,
      List.length_nil] at ih ⊢
    rw [ih]
    ring

theorem sprintfHex_mem (bs : List Nat) : ∀ c ∈ (sprintfHex bs).data, c ∈ hexDigits := by
  intro c hc
  simp only [sprintfHex, List.mem_flatMap, List.mem_cons, List.mem_singleton, List.not_mem_nil,
    or_false] at hc
  obtain ⟨b, _, rfl | rfl⟩ := hc <;> exact hexDigit_mem _

/-- The hexadecimal digest of any identifier has 64 characters. -/
theorem hexDigest_length (s : String) :
    (sprintfHex (Sum256 (bytesOfString s))).data.length = 64 := by
  rw [sprintfHex_length, Sum256_length]

theorem sliceStr_digest (s : String) :
    sliceStr (sprintfHex (Sum256 (bytesOfString s))) 0 7
      = .returned ⟨(sprintfHex (Sum256 (bytesOfString s))).data.take 7⟩ := by
  have h := hexDigest_length s
  simp [sliceStr, h]

theorem redactPath_redacts (cfg : Config) (p1 p2 p3 : String) (c : Ctx)
    (h1 : cfg.logLevel ≠ "DEBUG") (h2 : cfg.traceLevel < 0) :
    redactPath cfg p1 p2 p3 c = .returned (c.Path ("/webhookb2/"
      ++ ⟨(sprintfHex (Sum256 (bytesOfString p1))).data.take 7⟩ ++ "/IncomingWebhook/"
      ++ ⟨(sprintfHex (Sum256 (bytesOfString p2))).data.take 7⟩ ++ "/"
      ++ ⟨(sprintfHex (Sum256 (bytesOfString p3))).data.take 7⟩)) := by
  have hg : ((cfg.logLevel != "DEBUG") && !(isTraceLevel cfg.traceLevel)) = true := by
    simp [isTraceLevel, h1, h2]
  rw [redactPath, if_pos hg]
  simp only [sliceStr_digest, Outcome.andThen]

theorem redactPath_keeps (cfg : Config) (p1 p2 p3 : String) (c : Ctx)
    (h : cfg.logLevel = "DEBUG" ∨ cfg.traceLevel ≥ 0) :
    redactPath cfg p1 p2 p3 c = .returned c := by
  have hg : ¬ ((cfg.logLevel != "DEBUG") && !(isTraceLevel cfg.traceLevel)) = true := by
    rcases h with h | h <;> simp [isTraceLevel, h]
  rw [redactPath, if_neg hg]

theorem redactPath_returns (cfg : Config) (p1 p2 p3 : String) (c : Ctx) :
    ∃ c2, redactPath cfg p1 p2 p3 c = .returned c2 ∧ c2.status = c.status ∧ c2.body = c.body := by
  by_cases h : cfg.logLevel = "DEBUG" ∨ cfg.traceLevel ≥ 0
  · exact ⟨c, redactPath_keeps cfg p1 p2 p3 c h, rfl, rfl⟩
  · rw [not_or] at h
    exact ⟨_, redactPath_redacts cfg p1 p2 p3 c h.1 (by omega), rfl, rfl⟩

theorem SendStatus_status (sm : Int → String) (c : Ctx) (status : Int) :
    (c.SendStatus sm status).status = status := by
  simp only [Ctx.SendStatus]
  split_ifs <;> rfl

theorem SendStatus_path (sm : Int → String) (c : Ctx) (status : Int) :
    (c.SendStatus sm status).path = c.path := by
  simp only [Ctx.SendStatus]
  split_ifs <;> rfl

theorem foldl_SendStatus (sm : Int → String) (errs : List String) :
    ∀ c : Ctx, (errs.foldl (fun c _e => c.SendStatus sm 504) c).path = c.path ∧
      (errs.foldl (fun c _e => c.SendStatus sm 504) c).status
        = if errs = [] then c.status else 504 := by
  induction errs with
  | nil => intro c; simp
  | cons e es ih =>
    intro c
    obtain ⟨h1, h2⟩ := ih (c.SendStatus sm 504)
    rw [List.foldl_cons, h1, h2, SendStatus_path, SendStatus_status]
    simp

theorem respond_path (sm : Int → String) (data : SomeStruct) (code : Int) (errs : List String)
    (c : Ctx) : (respond sm data code errs c).path = c.path := by
  unfold respond
  split_ifs
  · exact SendStatus_path sm c code
  · exact (foldl_SendStatus sm errs c).1

theorem respond_status (sm : Int → String) (data : SomeStruct) (code : Int) (errs : List String)
    (c : Ctx) :
    (respond sm data code errs c).status
      = if code ≥ 400 then code else if errs = [] then c.status else 504 := by
  unfold respond
  split_ifs with h1 h2
  · exact SendStatus_status sm c code
  · rw [h2]; rfl
  · have h := (foldl_SendStatus sm errs c).2
    rw [if_neg h2] at h
    exact h

theorem respond_body (sm : Int → String) (data : SomeStruct) (code : Int) (errs : List String)
    (c : Ctx) (h : code < 400) :
    (respond sm data code errs c).body
      = "\x7b\"RequestID\":" ++ encodeString true data.RequestID ++ "\x7d" := by
  unfold respond
  rw [if_neg (by omega)]
  rfl

/-! ## The claims on `ParsePR` -/

/-- C1: for a decoded event with N reviewers and a non-empty `pullRequest.links.self`,
`ParsePR` builds a card whose first attachment carries exactly N+1 mention entities:
the i-th one is built from the i-th reviewer (text `<at>name UPN</at>`, mentioned id
the e-mail address, mentioned name the display name), in the document's order, and
the last one is built the same way from the pull request's author. -/
theorem ParsePR_entities (inventory : BitBucketPREvent)
    (h : inventory.PullRequest.Links.Self ≠ []) :
    ∃ msg att, ParsePR.msg inventory = .returned msg ∧ msg.Attachments.get? 0 = some att ∧
      att.Content.Msteams.Entities.length = inventory.PullRequest.Reviewers.length + 1 ∧
      (∀ i r, inventory.PullRequest.Reviewers.get? i = some r →
        att.Content.Msteams.Entities.get? i
          = some { Type_ := "mention", Text := "<at>" ++ r.User.Name ++ " UPN</at>",
                   Mentioned := { ID := r.User.EmailAddress, Name := r.User.DisplayName } }) ∧
      att.Content.Msteams.Entities.get? inventory.PullRequest.Reviewers.length
        = some { Type_ := "mention",
                 Text := "<at>" ++ inventory.PullRequest.Author.User.Name ++ " UPN</at>",
                 Mentioned := { ID := inventory.PullRequest.Author.User.EmailAddress,
                                Name := inventory.PullRequest.Author.User.DisplayName } } := by
  obtain ⟨l, ls, hl⟩ := List.exists_cons_of_ne_nil h
  refine ⟨_, _, msg_of_bodyText inventory _ (bodyText_cons inventory l ls hl), rfl, ?_, ?_, ?_⟩
  · simp [reviewersEntityList_eq]
  · intro i r hr
    have hi : i < (inventory.PullRequest.Reviewers.map fun r => mentionEntityOf r.User).length := by
      rw [List.length_map]
      exact (List.get?_eq_some.1 hr).1
    simp only [reviewersEntityList_eq]
    rw [List.get?_eq_getElem?, List.getElem?_append_left hi, List.getElem?_map,
      ← List.get?_eq_getElem?, hr]
    rfl
  · simp only [reviewersEntityList_eq]
    rw [List.get?_eq_getElem?, List.getElem?_append_right (by simp)]
    simp [mentionEntityOf, mentionText]

/-- C1 at the spec's example event: two entities, `alice` then `bob`. -/
theorem ParsePR_entities_witness :
    ∃ msg att, ParsePR.msg specExampleEvent = .returned msg ∧ msg.Attachments.get? 0 = some att ∧
      att.Content.Msteams.Entities.length = specExampleEvent.PullRequest.Reviewers.length + 1 ∧
      (∀ i r, specExampleEvent.PullRequest.Reviewers.get? i = some r →
        att.Content.Msteams.Entities.get? i
          = some { Type_ := "mention", Text := "<at>" ++ r.User.Name ++ " UPN</at>",
                   Mentioned := { ID := r.User.EmailAddress, Name := r.User.DisplayName } }) ∧
      att.Content.Msteams.Entities.get? specExampleEvent.PullRequest.Reviewers.length
        = some { Type_ := "mention",
                 Text := "<at>" ++ specExampleEvent.PullRequest.Author.User.Name ++ " UPN</at>",
                 Mentioned := { ID := specExampleEvent.PullRequest.Author.User.EmailAddress,
                                Name := specExampleEvent.PullRequest.Author.User.DisplayName } } :=
  ParsePR_entities specExampleEvent (by decide)

/-- C2, as the spec states it, fails: for the example event the text of the card's
body block is not the string in which the closing parenthesis of the link is
followed directly by the two newlines. -/
theorem example_bodyText_not_as_stated :
    (ParsePR.msg specExampleEvent).map bodyTexts
      ≠ .returned [["Hi Team, <at>bob UPN</at> opened a PR, please review: [Fix bug](https://scm.example/prs/42)\n\nCC: <at>alice UPN</at>"]] := by
  decide

/-- C2, amended: for the example event the card has a single body text block, and its
text has one space between the closing parenthesis of the link and the two
newlines. -/
theorem example_bodyText :
    (ParsePR.msg specExampleEvent).map bodyTexts
      = .returned [["Hi Team, <at>bob UPN</at> opened a PR, please review: [Fix bug](https://scm.example/prs/42) \n\nCC: <at>alice UPN</at>"]] := by
  decide

/-- C3: for every reviewer sequence the string placed after `"CC: "` is the reviewers'
mention texts, in order, joined by `", "`: the trim removes exactly the one
trailing `", "`, so the string does not end with `", "`, and it is empty when
there is no reviewer; it is what follows `"CC: "` at the end of the body text. -/
theorem reviewersList_joined (inventory : BitBucketPREvent) :
    ParsePR.reviewersList inventory
        = ", ".intercalate
            (inventory.PullRequest.Reviewers.map fun r => "<at>" ++ r.User.Name ++ " UPN</at>") ∧
      ((ParsePR.loop inventory).reviewersList
          = String.join (inventory.PullRequest.Reviewers.map
              fun r => "<at>" ++ r.User.Name ++ " UPN</at>" ++ ", ")) ∧
      (inventory.PullRequest.Reviewers ≠ [] →
        (ParsePR.loop inventory).reviewersList = ParsePR.reviewersList inventory ++ ", ") ∧
      ¬ (", ".data <:+ (ParsePR.reviewersList inventory).data) ∧
      (inventory.PullRequest.Reviewers = [] → ParsePR.reviewersList inventory = "") ∧
      (∀ bodyText, ParsePR.bodyText inventory = .returned bodyText →
        ("CC: " ++ ParsePR.reviewersList inventory).data <:+ bodyText.data) := by
  refine ⟨reviewersList_eq inventory, ?_, ?_, ?_, ?_, ?_⟩
  · apply String.ext
    rw [(loop_spec inventory).2.2, join_data, List.map_map]
    simp [Function.comp_def, mentionText, String.data_append]
  · intro hne
    apply String.ext
    rw [(loop_spec inventory).2.2, String.data_append, reviewersList_data]
    have h := flatten_eq_intercalate_append [',', ' ']
      (inventory.PullRequest.Reviewers.map fun r => (mentionText r.User).data) (by simpa using hne)
    rw [← h, List.map_map]
    rfl
  · rw [reviewersList_data]
    have h := joined_ends (inventory.PullRequest.Reviewers.map fun r => r.User)
    simp only [List.map_map, Function.comp_def] at h
    rcases h with h | ⟨x, h⟩
    · rw [h]; decide
    · rw [h]; exact not_suffix_of_ends x
  · intro hnil
    rw [reviewersList_eq, hnil]
    rfl
  · intro bodyText hb
    cases hs : inventory.PullRequest.Links.Self with
    | nil =>
      rw [bodyText_nil inventory hs] at hb
      cases hb
    | cons l ls =>
      rw [bodyText_cons inventory l ls hs] at hb
      injection hb with hb
      subst hb
      rw [String.data_append]
      exact List.suffix_append _ _

/-- The trim at a reviewer whose name ends in a comma and a space, and one whose name
ends in a space and a comma: only the separator after the last mention text goes. -/
theorem reviewersList_odd_names :
    ParsePR.reviewersList
        { PullRequest := { Reviewers := [{ User := { Name := "a, " } }, { User := { Name := "b ," } }] } }
      = "<at>a,  UPN</at>, <at>b , UPN</at>" := by
  decide

/-- C4: the event-key suffix is `"opened"` for the event key `"pr:opened"` and
`"eviewer:approved"` for the event key `"pr:reviewer:approved"`, whatever the other
fields of the event are. -/
theorem eventKeySuffix_examples (inventory : BitBucketPREvent) :
    ParsePR.eventKeySuffix { inventory with EventKey := "pr:opened" } = "opened" ∧
      ParsePR.eventKeySuffix { inventory with EventKey := "pr:reviewer:approved" }
        = "eviewer:approved" := by
  constructor
  · show TrimLeft "pr:opened" "pr:" = "opened"
    decide
  · show TrimLeft "pr:reviewer:approved" "pr:" = "eviewer:approved"
    decide

/-- C9, as the spec states it, fails: for the event key `"pr:opened"` the suffix is not
the key with only its leading `p` and `r` removed (that would be `":opened"`); the
colon is removed too. -/
theorem eventKeySuffix_not_stripLeadingPR :
    ParsePR.eventKeySuffix { EventKey := "pr:opened" } ≠ stripLeadingPR "pr:opened" := by
  decide

/-- C9, amended: for every event key the suffix is the key with its longest leading run
of the three characters `p`, `r` and `:` removed: the key is that run followed by the
suffix, the run holds no other character, and the suffix is empty or starts with a
character that is none of the three; nothing after the run is changed. -/
theorem eventKeySuffix_spec (inventory : BitBucketPREvent) :
    ∃ run : List Char,
      inventory.EventKey.data = run ++ (ParsePR.eventKeySuffix inventory).data ∧
      (∀ c ∈ run, c = 'p' ∨ c = 'r' ∨ c = ':') ∧
      ∀ c, (ParsePR.eventKeySuffix inventory).data.head? = some c →
        c ≠ 'p' ∧ c ≠ 'r' ∧ c ≠ ':' := by
  obtain ⟨run, h1, h2, h3⟩ := trimLeftLoop_spec "pr:".data inventory.EventKey.data
  refine ⟨run, h1, ?_, ?_⟩
  · intro c hc
    have h : ['p', 'r', ':'].contains c = true := h2 c hc
    simpa using h
  · intro c hc
    have h : ['p', 'r', ':'].contains c = false := h3 c hc
    simpa using h

/-- C7: the read `inventory.PullRequest.Links.Self[0]` is in bounds exactly when
`links.self` has at least one entry. For every such event `ParsePR` completes, and
the link target in the body text of the card is the `href` of the first entry, the
later entries being ignored; for every event whose `links.self` is empty or missing
the read is out of bounds and neither a card nor a result is produced. -/
theorem ParsePR_links_self (inventory : BitBucketPREvent) :
    ((∃ l, index inventory.PullRequest.Links.Self 0 = .returned l)
        ↔ 1 ≤ inventory.PullRequest.Links.Self.length) ∧
      (∀ l ls, inventory.PullRequest.Links.Self = l :: ls →
        ∃ msg, ParsePR.msg inventory = .returned msg ∧
          ParsePR (.ok inventory) = .returned msg.NonEscapedJSON.1 ∧
          bodyTexts msg = [["Hi Team, " ++ "<at>" ++ inventory.PullRequest.Author.User.Name
            ++ " UPN</at>" ++ " " ++ ParsePR.eventKeySuffix inventory
            ++ " a PR, please review: [" ++ inventory.PullRequest.Title ++ "](" ++ l.Href
            ++ ") \n\n" ++ ("CC: " ++ ParsePR.reviewersList inventory)]]) ∧
      (inventory.PullRequest.Links.Self = [] →
        index inventory.PullRequest.Links.Self 0 = .indexOutOfRange ∧
        ParsePR.bodyText inventory = .indexOutOfRange ∧
        ParsePR.msg inventory = .indexOutOfRange ∧
        ParsePR (.ok inventory) = .indexOutOfRange) := by
  refine ⟨?_, ?_, ?_⟩
  · cases inventory.PullRequest.Links.Self with
    | nil => simp [index]
    | cons l ls => simp [index]
  · intro l ls hl
    have hm := msg_of_bodyText inventory _ (bodyText_cons inventory l ls hl)
    refine ⟨_, hm, ?_, rfl⟩
    rw [ParsePR, hm]
    rfl
  · intro hnil
    have hb := bodyText_nil inventory hnil
    have hm : ParsePR.msg inventory = .indexOutOfRange := by rw [ParsePR.msg, hb]; rfl
    refine ⟨by rw [hnil]; rfl, hb, hm, ?_⟩
    rw [ParsePR, hm]
    rfl

/-- C10: for every decoded event with a non-empty `pullRequest.links.self`, the text of
every mention entity of the card occurs as a substring of the text of the card's body
block: the body text starts with `"Hi Team, "` followed by the author's mention text,
it ends with `"CC: "` followed by the trimmed reviewer list, and every reviewer's
mention text occurs in that trimmed list. -/
theorem entity_texts_in_bodyText (inventory : BitBucketPREvent)
    (h : inventory.PullRequest.Links.Self ≠ []) :
    ∃ msg bodyText, ParsePR.msg inventory = .returned msg ∧ bodyTexts msg = [[bodyText]] ∧
      (∀ att ∈ msg.Attachments, ∀ e ∈ att.Content.Msteams.Entities,
        e.Text.data <:+: bodyText.data) ∧
      ("Hi Team, " ++ ("<at>" ++ inventory.PullRequest.Author.User.Name ++ " UPN</at>")).data
        <+: bodyText.data ∧
      ("CC: " ++ ParsePR.reviewersList inventory).data <:+ bodyText.data ∧
      ∀ r ∈ inventory.PullRequest.Reviewers,
        ("<at>" ++ r.User.Name ++ " UPN</at>").data <:+: (ParsePR.reviewersList inventory).data := by
  obtain ⟨l, ls, hl⟩ := List.exists_cons_of_ne_nil h
  have hpre : ("Hi Team, " ++ mentionText inventory.PullRequest.Author.User).data
      <+: ("Hi Team, " ++ mentionText inventory.PullRequest.Author.User ++ " "
          ++ ParsePR.eventKeySuffix inventory ++ " a PR, please review: ["
          ++ inventory.PullRequest.Title ++ "](" ++ l.Href ++ ") \n\n"
          ++ ("CC: " ++ ParsePR.reviewersList inventory)).data := by
    simp only [String.data_append, List.append_assoc]
    exact ⟨_, rfl⟩
  have hsuf : ("CC: " ++ ParsePR.reviewersList inventory).data
      <:+ ("Hi Team, " ++ mentionText inventory.PullRequest.Author.User ++ " "
          ++ ParsePR.eventKeySuffix inventory ++ " a PR, please review: ["
          ++ inventory.PullRequest.Title ++ "](" ++ l.Href ++ ") \n\n"
          ++ ("CC: " ++ ParsePR.reviewersList inventory)).data := by
    rw [String.data_append]
    exact List.suffix_append _ _
  have hrev : ∀ r ∈ inventory.PullRequest.Reviewers,
      (mentionText r.User).data <:+: (ParsePR.reviewersList inventory).data := by
    intro r hr
    rw [reviewersList_data]
    exact mem_occurs_intercalate _ _ _ (List.mem_map.2 ⟨r, hr, rfl⟩)
  refine ⟨_, _, msg_of_bodyText inventory _ (bodyText_cons inventory l ls hl), rfl, ?_,
    hpre, hsuf, hrev⟩
  intro att hatt e he
  simp only [List.mem_singleton] at hatt
  subst hatt
  simp only [reviewersEntityList_eq, List.mem_append, List.mem_map, List.mem_singleton] at he
  rcases he with ⟨r, hr, rfl⟩ | rfl
  · have h1 := hrev r hr
    have h2 : (ParsePR.reviewersList inventory).data
        <:+: ("CC: " ++ ParsePR.reviewersList inventory).data := by
      rw [String.data_append]
      exact (List.suffix_append _ _).isInfix
    exact (h1.trans h2).trans hsuf.isInfix
  · have h1 : (mentionText inventory.PullRequest.Author.User).data
        <:+: ("Hi Team, " ++ mentionText inventory.PullRequest.Author.User).data := by
      rw [String.data_append]
      exact (List.suffix_append _ _).isInfix
    exact h1.trans hpre.isInfix

/-- C10 at the spec's example event. -/
theorem entity_texts_in_bodyText_witness :
    ∃ msg bodyText, ParsePR.msg specExampleEvent = .returned msg ∧ bodyTexts msg = [[bodyText]] ∧
      (∀ att ∈ msg.Attachments, ∀ e ∈ att.Content.Msteams.Entities,
        e.Text.data <:+: bodyText.data) ∧
      ("Hi Team, " ++ ("<at>" ++ specExampleEvent.PullRequest.Author.User.Name ++ " UPN</at>")).data
        <+: bodyText.data ∧
      ("CC: " ++ ParsePR.reviewersList specExampleEvent).data <:+ bodyText.data ∧
      ∀ r ∈ specExampleEvent.PullRequest.Reviewers,
        ("<at>" ++ r.User.Name ++ " UPN</at>").data
          <:+: (ParsePR.reviewersList specExampleEvent).data :=
  entity_texts_in_bodyText specExampleEvent (by decide)

theorem NonEscapedJSON_fst (msg : TeamsMsg) :
    msg.NonEscapedJSON.1 = encodeTeamsMsg false msg ++ "\n" := rfl

theorem entity_type_no_angle (inventory : BitBucketPREvent) (e : ReviewerEntity)
    (he : e ∈ ParsePR.reviewersEntityList inventory) : angleBrackets e.Type_ = [] := by
  simp only [reviewersEntityList_eq, List.mem_append, List.mem_map, List.mem_singleton] at he
  have e0 : angleBrackets "mention" = [] := by decide
  rcases he with ⟨r, _, rfl⟩ | rfl <;> exact e0

/-- C5: for every card that `ParsePR` produces, the bytes that `NonEscapedJSON` returns
hold the angle brackets of the mention markup literally. An angle bracket is written
as itself and no character is written as the escape sequence of one; the JSON string
value of the body text and of every entity text occurs in the output and holds
exactly the angle brackets of the text; and the angle brackets of the whole output
are those of the body text followed by those of the entities' text, id and name, so
none of them has been replaced by an escape sequence. -/
theorem NonEscapedJSON_angle_brackets (inventory : BitBucketPREvent)
    (h : inventory.PullRequest.Links.Self ≠ []) :
    ∃ msg bodyText, ParsePR.msg inventory = .returned msg ∧ bodyTexts msg = [[bodyText]] ∧
      ParsePR (.ok inventory) = .returned msg.NonEscapedJSON.1 ∧
      (∀ c, isAngleBracket c = true → escapeChar false c = [c]) ∧
      (∀ c, escapeChar false c ≠ ['\\', 'u', '0', '0', '3', 'c'] ∧
        escapeChar false c ≠ ['\\', 'u', '0', '0', '3', 'e']) ∧
      (∀ t, (t = bodyText ∨
            ∃ att ∈ msg.Attachments, ∃ e ∈ att.Content.Msteams.Entities, t = e.Text) →
        (encodeString false t).data <:+: msg.NonEscapedJSON.1.data ∧
        angleBrackets (encodeString false t) = angleBrackets t) ∧
      angleBrackets msg.NonEscapedJSON.1
        = angleBrackets bodyText ++ msg.Attachments.flatMap fun att =>
            att.Content.Msteams.Entities.flatMap fun e =>
              angleBrackets e.Text ++ angleBrackets e.Mentioned.ID
                ++ angleBrackets e.Mentioned.Name := by
  obtain ⟨l, ls, hl⟩ := List.exists_cons_of_ne_nil h
  have hm := msg_of_bodyText inventory _ (bodyText_cons inventory l ls hl)
  refine ⟨_, _, hm, rfl, ?_, escapeChar_angle, escapeChar_ne_escape, ?_, ?_⟩
  · rw [ParsePR, hm]
    rfl
  · intro t ht
    refine ⟨?_, angleBrackets_encodeString t⟩
    rw [NonEscapedJSON_fst]
    apply occurs_left
    obtain ⟨hbody, hent⟩ := card_texts_occur "message" "application/vnd.microsoft.card.adaptive"
      { Type_ := "AdaptiveCard",
        Body := [{ Type_ := "TextBlock",
                   Text := "Hi Team, " ++ mentionText inventory.PullRequest.Author.User ++ " "
                     ++ ParsePR.eventKeySuffix inventory ++ " a PR, please review: ["
                     ++ inventory.PullRequest.Title ++ "](" ++ l.Href ++ ") \n\n"
                     ++ ("CC: " ++ ParsePR.reviewersList inventory) }],
        Schema := "http://adaptivecards.io/schemas/adaptive-card.json",
        Version := "1.2",
        Msteams := { Width := "Full", Entities := ParsePR.reviewersEntityList inventory } }
    rcases ht with rfl | ⟨att, hatt, e, he, rfl⟩
    · exact hbody _ (List.mem_singleton.2 rfl)
    · simp only [List.mem_singleton] at hatt
      subst hatt
      exact hent e he
  · rw [NonEscapedJSON_fst, angleBrackets_append, angleBrackets_card]
    have e0 : angleBrackets "\n" = [] := by decide
    rw [e0, List.append_nil]
    congr 1
    simp only [List.flatMap_cons, List.flatMap_nil, List.append_nil]
    simp only [List.flatMap_def]
    congr 1
    apply List.map_congr_left
    intro e he
    rw [entity_type_no_angle inventory e he, List.nil_append]

/-- C5 at the spec's example event. -/
theorem NonEscapedJSON_angle_brackets_witness :
    ∃ msg bodyText, ParsePR.msg specExampleEvent = .returned msg ∧ bodyTexts msg = [[bodyText]] ∧
      ParsePR (.ok specExampleEvent) = .returned msg.NonEscapedJSON.1 ∧
      (∀ c, isAngleBracket c = true → escapeChar false c = [c]) ∧
      (∀ c, escapeChar false c ≠ ['\\', 'u', '0', '0', '3', 'c'] ∧
        escapeChar false c ≠ ['\\', 'u', '0', '0', '3', 'e']) ∧
      (∀ t, (t = bodyText ∨
            ∃ att ∈ msg.Attachments, ∃ e ∈ att.Content.Msteams.Entities, t = e.Text) →
        (encodeString false t).data <:+: msg.NonEscapedJSON.1.data ∧
        angleBrackets (encodeString false t) = angleBrackets t) ∧
      angleBrackets msg.NonEscapedJSON.1
        = angleBrackets bodyText ++ msg.Attachments.flatMap fun att =>
            att.Content.Msteams.Entities.flatMap fun e =>
              angleBrackets e.Text ++ angleBrackets e.Mentioned.ID
                ++ angleBrackets e.Mentioned.Name :=
  NonEscapedJSON_angle_brackets specExampleEvent (by decide)

theorem ParsePR_returns (inventory : BitBucketPREvent)
    (h : inventory.PullRequest.Links.Self ≠ []) :
    ∃ b, ParsePR (.ok inventory) = .returned b := by
  obtain ⟨l, ls, hl⟩ := List.exists_cons_of_ne_nil h
  have hm := msg_of_bodyText inventory _ (bodyText_cons inventory l ls hl)
  have hp : ParsePR (.ok inventory)
      = (ParsePR.msg inventory).andThen fun msg => .returned msg.NonEscapedJSON.1 := rfl
  rw [hp, hm]
  exact ⟨_, rfl⟩

/-- The handler after a successful transformation and a successful `a.Parse()`. -/
theorem handler_eq (cfg : Config) (sm : Int → String) (send : AgentRequest → AgentResult)
    (req : Inbound) (b : String) (hb : ParsePR req.unmarshal = .returned b) :
    handler cfg sm none send req
      = (redactPath cfg req.id1 req.id2 req.id3 { path := req.path }).andThen fun c =>
          .returned
            ({ method := "POST", host := cfg.teamsHost, contentType := "application/json",
               requestURI := "http://" ++ cfg.teamsHost ++ "/webhookb2/" ++ req.id1
                 ++ "/IncomingWebhook/" ++ req.id2 ++ "/" ++ req.id3,
               body := b, xRequestId := req.requestID },
             respond sm { RequestID := req.requestID }
               (send { method := "POST", host := cfg.teamsHost, contentType := "application/json",
                       requestURI := "http://" ++ cfg.teamsHost ++ "/webhookb2/" ++ req.id1
                         ++ "/IncomingWebhook/" ++ req.id2 ++ "/" ++ req.id3,
                       body := b, xRequestId := req.requestID }).code
               (send { method := "POST", host := cfg.teamsHost, contentType := "application/json",
                       requestURI := "http://" ++ cfg.teamsHost ++ "/webhookb2/" ++ req.id1
                         ++ "/IncomingWebhook/" ++ req.id2 ++ "/" ++ req.id3,
                       body := b, xRequestId := req.requestID }).errs c) := by
  rw [handler, hb]
  rfl

/-! ## The claims on the handler -/

/-- C6: the handler maps the result of the one outbound call to the inbound response
status, for every result: a downstream status of 400 or more is mirrored unchanged; a
connection failure (a non-empty error list, with a status below 400 as the agent
reports none) yields 504; every other result yields 200 with the JSON echo of the
request id as the body. -/
theorem handler_status (cfg : Config) (statusMessage : Int → String)
    (send : AgentRequest → AgentResult) (req : Inbound) (inventory : BitBucketPREvent)
    (hu : req.unmarshal = .ok inventory) (hl : inventory.PullRequest.Links.Self ≠ []) :
    ∃ a c, handler cfg statusMessage none send req = .returned (a, c) ∧
      ((send a).code ≥ 400 → c.status = (send a).code) ∧
      ((send a).code < 400 → (send a).errs ≠ [] → c.status = 504) ∧
      ((send a).code < 400 → (send a).errs = [] →
        c.status = 200 ∧
        c.body = "\x7b\"RequestID\":" ++ encodeString true req.requestID ++ "\x7d") := by
  obtain ⟨b, hb⟩ := ParsePR_returns inventory hl
  rw [← hu] at hb
  obtain ⟨c2, hc2, hs, _⟩ := redactPath_returns cfg req.id1 req.id2 req.id3 { path := req.path }
  refine ⟨_, _, by rw [handler_eq cfg statusMessage send req b hb, hc2]; rfl, ?_, ?_, ?_⟩
  · intro h
    rw [respond_status, if_pos h]
  · intro h he
    rw [respond_status, if_neg (by omega), if_neg he]
  · intro h he
    refine ⟨?_, respond_body _ _ _ _ _ h⟩
    rw [respond_status, if_neg (by omega), if_pos he, hs]

/-- C6 at three results for the example request: a downstream 201 yields 200, a
downstream 500 yields 500, and a connection failure yields 504. -/
theorem handler_status_witness :
    (∃ a c, handler quietConfig (fun _ => "") none (fun _ => ⟨201, "1", []⟩) exampleInbound
        = .returned (a, c) ∧ c.status = 200 ∧ c.body = "\x7b\"RequestID\":\"rid-1\"\x7d") ∧
      (∃ a c, handler quietConfig (fun _ => "") none (fun _ => ⟨500, "", []⟩) exampleInbound
        = .returned (a, c) ∧ c.status = 500) ∧
      (∃ a c, handler quietConfig (fun _ => "") none (fun _ => ⟨0, "", ["dial tcp: refused"]⟩)
        exampleInbound = .returned (a, c) ∧ c.status = 504) := by
  refine ⟨?_, ?_, ?_⟩
  · obtain ⟨a, c, h, _, _, h3⟩ := handler_status quietConfig (fun _ => "") (fun _ => ⟨201, "1", []⟩)
      exampleInbound specExampleEvent rfl (by decide)
    exact ⟨a, c, h, (h3 (by decide) rfl).1, (h3 (by decide) rfl).2⟩
  · obtain ⟨a, c, h, h1, _, _⟩ := handler_status quietConfig (fun _ => "") (fun _ => ⟨500, "", []⟩)
      exampleInbound specExampleEvent rfl (by decide)
    exact ⟨a, c, h, h1 (by decide)⟩
  · obtain ⟨a, c, h, _, h2, _⟩ := handler_status quietConfig (fun _ => "")
      (fun _ => ⟨0, "", ["dial tcp: refused"]⟩) exampleInbound specExampleEvent rfl (by decide)
    exact ⟨a, c, h, h2 (by decide) (by decide)⟩

/-- C8: when the log level is not `DEBUG` and the trace level is negative, the path the
access log prints is replaced by `/webhookb2/h1/IncomingWebhook/h2/h3`, each `h_k` being
the first seven characters of the lowercase hexadecimal SHA-256 digest of the k-th
path identifier; the slice `[0:7]` is in bounds because the digest has 64 hexadecimal
characters. When the log level is `DEBUG` or the trace level is not negative the path
is left unchanged. In both cases the outbound URI is built from the original
identifiers. -/
theorem handler_log_path (cfg : Config) (statusMessage : Int → String)
    (send : AgentRequest → AgentResult) (req : Inbound) (inventory : BitBucketPREvent)
    (hu : req.unmarshal = .ok inventory) (hl : inventory.PullRequest.Links.Self ≠ []) :
    ∃ a c, handler cfg statusMessage none send req = .returned (a, c) ∧
      a.requestURI = "http://" ++ cfg.teamsHost ++ "/webhookb2/" ++ req.id1
        ++ "/IncomingWebhook/" ++ req.id2 ++ "/" ++ req.id3 ∧
      (cfg.logLevel ≠ "DEBUG" ∧ cfg.traceLevel < 0 →
        c.path = "/webhookb2/" ++ digestPrefix req.id1 ++ "/IncomingWebhook/"
          ++ digestPrefix req.id2 ++ "/" ++ digestPrefix req.id3) ∧
      (cfg.logLevel = "DEBUG" ∨ cfg.traceLevel ≥ 0 → c.path = req.path) ∧
      ∀ s : String,
        (sprintfHex (Sum256 (bytesOfString s))).data.length = 64 ∧
        sliceStr (sprintfHex (Sum256 (bytesOfString s))) 0 7 = .returned (digestPrefix s) ∧
        (digestPrefix s).data.length = 7 ∧
        ∀ x ∈ (digestPrefix s).data, x ∈ hexDigits := by
  obtain ⟨b, hb⟩ := ParsePR_returns inventory hl
  rw [← hu] at hb
  have hdigest : ∀ s : String,
      (sprintfHex (Sum256 (bytesOfString s))).data.length = 64 ∧
      sliceStr (sprintfHex (Sum256 (bytesOfString s))) 0 7 = .returned (digestPrefix s) ∧
      (digestPrefix s).data.length = 7 ∧
      ∀ x ∈ (digestPrefix s).data, x ∈ hexDigits := by
    intro s
    refine ⟨hexDigest_length s, sliceStr_digest s, ?_, ?_⟩
    · show ((sprintfHex (Sum256 (bytesOfString s))).data.take 7).length = 7
      rw [List.length_take, hexDigest_length]
      rfl
    · intro x hx
      exact sprintfHex_mem _ x (List.mem_of_mem_take hx)
  by_cases hq : cfg.logLevel = "DEBUG" ∨ cfg.traceLevel ≥ 0
  · refine ⟨_, _, by rw [handler_eq cfg statusMessage send req b hb,
      redactPath_keeps cfg _ _ _ _ hq]; rfl, rfl, ?_, ?_, hdigest⟩
    · intro hq2
      rcases hq with hq | hq
      · exact absurd hq hq2.1
      · omega
    · intro _
      rw [respond_path]
  · have hq2 := hq
    rw [not_or] at hq2
    refine ⟨_, _, by rw [handler_eq cfg statusMessage send req b hb,
      redactPath_redacts cfg _ _ _ _ hq2.1 (by omega)]; rfl, rfl, ?_, ?_, hdigest⟩
    · intro _
      rw [respond_path]
      rfl
    · intro hq3
      exact absurd hq3 hq

set_option maxRecDepth 1000000 in
/-- The model of the digest agrees with the standard test vector for `"abc"`. -/
theorem Sum256_abc :
    sprintfHex (Sum256 (bytesOfString "abc"))
      = "ba7816bf8f01cfea414140de5dae2223b00361a396177a9cb410ff61f20015ad" := by
  decide

set_option maxRecDepth 1000000 in
/-- C8 at the example request: below DEBUG and TRACE the logged path holds the digest
prefixes of `a`, `b` and `c`, at log level `DEBUG` it is the request's path, and the
outbound URI holds the identifiers themselves in both cases. -/
theorem handler_log_path_witness :
    (∃ a c, handler quietConfig (fun _ => "") none (fun _ => ⟨201, "1", []⟩) exampleInbound
        = .returned (a, c) ∧
      a.requestURI = "http://teams.example/webhookb2/a/IncomingWebhook/b/c" ∧
      c.path = "/webhookb2/ca97811/IncomingWebhook/3e23e81/2e7d2c0") ∧
    (∃ a c, handler { quietConfig with logLevel := "DEBUG" } (fun _ => "") none
        (fun _ => ⟨201, "1", []⟩) exampleInbound = .returned (a, c) ∧
      a.requestURI = "http://teams.example/webhookb2/a/IncomingWebhook/b/c" ∧
      c.path = "/webhookb2/a/IncomingWebhook/b/c") := by
  have d1 : digestPrefix "a" = "ca97811" := by decide
  have d2 : digestPrefix "b" = "3e23e81" := by decide
  have d3 : digestPrefix "c" = "2e7d2c0" := by decide
  constructor
  · obtain ⟨a, c, h, hu, hp, _, _⟩ := handler_log_path quietConfig (fun _ => "")
      (fun _ => ⟨201, "1", []⟩) exampleInbound specExampleEvent rfl (by decide)
    refine ⟨a, c, h, hu, ?_⟩
    have hp2 := hp ⟨by decide, by decide⟩
    rw [hp2]
    show "/webhookb2/" ++ digestPrefix "a" ++ "/IncomingWebhook/" ++ digestPrefix "b" ++ "/"
      ++ digestPrefix "c" = _
    rw [d1, d2, d3]
    decide
  · obtain ⟨a, c, h, hu, _, hp, _⟩ := handler_log_path { quietConfig with logLevel := "DEBUG" }
      (fun _ => "") (fun _ => ⟨201, "1", []⟩) exampleInbound specExampleEvent rfl (by decide)
    exact ⟨a, c, h, hu, hp (Or.inl rfl)⟩

end Adaptor
